import Mathlib

/-!
Verification development for the librarian retrieval stack.

Part 1 embeds the memoizing batch-cache wrapper `batched_cache` from
`src/librarian/retriever/retriever_base.py` (lines 35-71).  The wrapper is a
higher-order function over an underlying batch search operation `func`; the
persistent cache store (`PersistentCache`, class `librarian.cache`, not part of
the sources here) is abstracted as a state type `σ` with `get`/`put`
operations, so that both the ordinary key-value store and the spec's
fail-open unreachable store can instantiate it.

Part 2 embeds `KylinLLMSearcher.inner_search` and its helpers from
`kylin/kylin_searcher.py` (lines 248-399): the bounded verification/retry
loop, per-retriever query rewriting with failure feedback, backend field
normalization, and summarization filtering.  LLM collaborators
(`searcher.chat` behind rewrite / verify / summarize) are modelled as
deterministic response functions of the data that reaches their prompts.
-/

namespace LibCache

/-- Errors the wrapper can raise: the `assert all(r is not None ...)`
on line 68 of `retriever_base.py`. -/
inductive CacheErr where
  | assertionError
deriving DecidableEq

/-- The query argument of `wrapper` (line 42): a single string or a list of
strings; line 46-47 coerces a bare string to a one-element list. -/
inductive QueryInput (Q : Type) where
  | single (q : Q)
  | batch (qs : List Q)

/-- The list-of-queries view of the input, per lines 46-47. -/
def queryList {Q : Type} : QueryInput Q → List Q
  | .single q => [q]
  | .batch qs => qs

/-- Abstract cache-store interface: `RETRIEVAL_CACHE.get(k, None)` and
`RETRIEVAL_CACHE[k] = v`.  `σ` is the store state, `K` the key type, `V`
the stored-value type. -/
structure CacheOps (σ K V : Type) where
  get : σ → K → Option V
  put : σ → K → V → σ

/-- `hashkey(cfg=self.cfg, query=q, **search_kwargs)` (lines 36-38, 57):
a deterministic key built from the configuration, the query, and the
remaining keyword arguments; injective in those three components exactly as
the Python tuple-of-sorted-kwargs is. -/
def hashkey {C Q P : Type} (cfg : C) (q : Q) (p : P) : C × Q × P := (cfg, q, p)

/-- `disable_cache = search_kwargs.pop("disable_cache", os.environ.get("DISABLE_CACHE", False))`
(lines 50-52): the per-call keyword argument, when present, takes priority;
the environment flag's truthiness is only the default. -/
def effectiveDisableCache (percall : Option Bool) (envTruthy : Bool) : Bool :=
  percall.getD envTruthy

/-- The indices of the `None` entries of `results`, ascending:
`[n for n, r in enumerate(results) if r is None]` (line 62). -/
def noneIdx {R : Type} (res : List (Option R)) : List Nat :=
  res.enum.filterMap (fun p => if p.2.isNone then some p.1 else none)

/-- `assert all(r is not None for r in results); return results` (lines 68-69):
succeeds with the unwrapped values iff no entry is `None`. -/
def assertAllSome {R : Type} : List (Option R) → Except CacheErr (List R)
  | [] => .ok []
  | some r :: rest => (assertAllSome rest).map (fun l => r :: l)
  | none :: _ => .error .assertionError

/-- The write-back loop of lines 65-67: for each pair `(n, r)` of
`zip(new_indices, new_results)`, set `results[n] = r` and store
`(r, keys[n])` in the cache under `keys[n]`.  `n` is always a valid index
into `keys`, exactly as in the source. -/
def applyWrites {σ C Q P R : Type} (ops : CacheOps σ (C × Q × P) (R × (C × Q × P)))
    (keys : List (C × Q × P)) :
    List (Option R) × σ → List (Nat × R) → List (Option R) × σ :=
  fun init l =>
    l.foldl
      (fun acc pr =>
        (acc.1.set pr.1 (some pr.2),
         match keys.get? pr.1 with
         | some k => ops.put acc.2 k (pr.2, k)
         | none => acc.2))
      init

/-- Result of one wrapper call: the returned value (or the assertion error),
the cache store after the call, and the list of invocations of the underlying
operation (each entry is the query batch that invocation received). -/
structure BCOut (Q R σ : Type) where
  output : Except CacheErr (List R)
  store : σ
  calls : List (List Q)

/-- Lines 56-69 of `retriever_base.py`: the cache-enabled path.
Keys are computed per query, the cache is read once per key (the stored value
is the pair `(result, key)` written on line 67, and reading projects out the
first component, the `[0]` on line 58), misses are collected in input order,
the underlying operation runs once on the miss subset if it is non-empty, and
its results are scattered back positionally and written to the store. -/
def cachedSearch {σ C Q P R : Type} (ops : CacheOps σ (C × Q × P) (R × (C × Q × P)))
    (func : List Q → P → List R) (cfg : C) (query : List Q) (p : P) (store : σ) :
    BCOut Q R σ :=
  let keys := query.map (fun q => hashkey cfg q p)
  let results := keys.map (fun k => (ops.get store k).map (fun v => v.1))
  let new_query := (query.zip results).filterMap
    (fun qr => if qr.2.isNone then some qr.1 else none)
  if new_query.isEmpty then
    ⟨assertAllSome results, store, []⟩
  else
    let new_results := func new_query p
    let rs := applyWrites ops keys (results, store) ((noneIdx results).zip new_results)
    ⟨assertAllSome rs.1, rs.2, [new_query]⟩

/-- The full wrapper `batched_cache(func)` (lines 40-69): coerce a bare
string to a list, resolve the disable-cache flag, and either delegate the
whole batch directly (line 54) or run the cache-enabled path. -/
def batched_cache {σ C Q P R : Type} (ops : CacheOps σ (C × Q × P) (R × (C × Q × P)))
    (func : List Q → P → List R) (cfg : C) (input : QueryInput Q)
    (percall : Option Bool) (envTruthy : Bool) (p : P) (store : σ) :
    BCOut Q R σ :=
  let query := queryList input
  if effectiveDisableCache percall envTruthy then
    ⟨.ok (func query p), store, [query]⟩
  else
    cachedSearch ops func cfg query p store

/-- The concrete key-value store: a function from keys to stored values,
with point update on put. -/
def fnOps {C Q P R : Type} [DecidableEq C] [DecidableEq Q] [DecidableEq P] :
    CacheOps ((C × Q × P) → Option (R × (C × Q × P))) (C × Q × P) (R × (C × Q × P)) :=
  ⟨fun s k => s k,
   fun s k v => fun k2 => if k2 = k then some v else s k2⟩

/-- Modelled from the spec: the Cache Store (`PersistentCache` backed by LMDB,
`librarian.cache`, not among the sources here) must fail open when the backing
store cannot be reached ("cache operations must fail open: if the store cannot
be reached, the wrapper falls back to invoking the underlying operation
directly", spec section 7).  An unreachable store reports every key absent and
stores nothing. -/
def deadOps {C Q P R : Type} :
    CacheOps Unit (C × Q × P) (R × (C × Q × P)) :=
  ⟨fun _ _ => none, fun s _ _ => s⟩

/-- The per-query value the cache-enabled path reads for a query:
`RETRIEVAL_CACHE.get(hashkey(...), None)[0]` (lines 57-58). -/
def cacheHit {σ C Q P R : Type} (ops : CacheOps σ (C × Q × P) (R × (C × Q × P)))
    (store : σ) (cfg : C) (p : P) (q : Q) : Option R :=
  (ops.get store (hashkey cfg q p)).map (fun v => v.1)

/-- The miss subset of a batch, in input order (line 61). -/
def missQueries {σ C Q P R : Type} (ops : CacheOps σ (C × Q × P) (R × (C × Q × P)))
    (store : σ) (cfg : C) (p : P) (query : List Q) : List Q :=
  query.filter (fun q => (cacheHit ops store cfg p q).isNone)

/-- Positional reassembly of cached and newly computed results: cached
entries stay in place, `None` entries are filled from `upd` left to right. -/
def mergeRes {R : Type} : List (Option R) → List R → List (Option R)
  | [], _ => []
  | some r :: rest, upd => some r :: mergeRes rest upd
  | none :: rest, [] => none :: mergeRes rest []
  | none :: rest, u :: upd => some u :: mergeRes rest upd

/-- The in-place update loop restricted to its effect on `results`. -/
def setAll {R : Type} (res : List (Option R)) (l : List (Nat × R)) : List (Option R) :=
  l.foldl (fun acc p => acc.set p.1 (some p.2)) res

/-- A concrete underlying batch operation over natural-number queries,
used to exercise the wrapper on explicit inputs. -/
def succSearch : List Nat → Unit → List Nat := fun qs _ => qs.map (· + 1)

/-- A concrete empty store for the concrete key type. -/
def natStoreEmpty : (Unit × Nat × Unit) → Option (Nat × (Unit × Nat × Unit)) :=
  fun _ => none

/-- A concrete store holding a (stale) entry `99` for query `0`. -/
def natStoreStale : (Unit × Nat × Unit) → Option (Nat × (Unit × Nat × Unit)) :=
  fun k => if k = ((), 0, ()) then some (99, ((), 0, ())) else none

/-- A concrete store that is coherent with `succSearch`: query `0` maps
to result `1`. -/
def natStoreCoherent : (Unit × Nat × Unit) → Option (Nat × (Unit × Nat × Unit)) :=
  fun k => if k = ((), 0, ()) then some (1, ((), 0, ())) else none

end LibCache

namespace Kylin

/-- Errors `inner_search` can raise: the failed `assert "urls" in ctxs` on
line 285 of `kylin_searcher.py`, and a Python `IndexError` from
`i[idx]` on line 269 (never hit on well-formed histories, as in the source). -/
inductive KErr where
  | assertionError
  | indexError
deriving DecidableEq

/-- One result group returned by a retriever backend for one query: the
`ctxs` dict of line 278-282 before post-processing.  `indices` and `urls`
are optional because either key may be absent. -/
structure RawResult where
  texts : List String
  indices : Option (List String)
  urls : Option (List String)
deriving DecidableEq

/-- One retrieved-context dict as built on lines 287-296: `text` is an
`Option` because summarization (line 396) may set it to `None`. -/
structure KCtx where
  query : String
  retriever : String
  text : Option String
  full_text : String
  source : String
deriving DecidableEq

/-- One entry of `retrieval_history[turn_num]` (lines 297-308): retriever
id, the query actually used, the built contexts, and — only when
summarization is enabled — the summarized copies. -/
structure RoundRecord where
  retriever : String
  query : String
  contexts : List KCtx
  summarized_contexts : Option (List KCtx)
deriving DecidableEq

/-- The searcher's LLM collaborators, modelled as deterministic response
functions of the data that reaches their prompts:
`rewriteResp info engine failingQueries` is the chat response of
`rewrite_query` (lines 331-352); `searchFn retriever query` is the single
result group `self.retrievers[retriever].search([q], ...)[0]` (lines
278-282); `summResp fullText question` is the chat response for one
summarization prompt (lines 381-391); `verifyResp contexts question` is the
chat response of `verify_contexts` (lines 357-365). -/
structure Collabs where
  rewriteResp : String → String → List String → String
  searchFn : String → String → RawResult
  summResp : String → String → String
  verifyResp : List KCtx → String → String

/-- The three feature switches of `KylinLLMSearcher` that `inner_search`
reads: `self.verify`, `self.rewrite`, `self.summary_context`
(lines 165-167). -/
structure KylinCfg where
  verify : Bool
  rewrite : Bool
  summary_context : Bool
deriving DecidableEq

/-- Substring test on character lists, modelling Python's `in` operator
for strings. -/
def hasSub (sub : List Char) : List Char → Bool
  | [] => sub.isEmpty
  | c :: rest => sub.isPrefixOf (c :: rest) || hasSub sub rest

/-- `text.lower()` as a character list (ASCII case folding, which covers
every pattern the source matches against). -/
def lowerChars (s : String) : List Char := s.data.map Char.toLower

/-- `"yes" in response.lower()` (line 366). -/
def containsYes (s : String) : Bool :=
  hasSub "yes".data (lowerChars s)

/-- The `not_relevant` predicate of `summarize_contexts` (lines 371-379):
`re.match` anchors at the start of the string, so the lowercased text must
begin with `context does not provide`, `context does not contain`, or
`no relevant information`. -/
def not_relevant (text : String) : Bool :=
  ("context does not provide".data.isPrefixOf (lowerChars text))
    || ("context does not contain".data.isPrefixOf (lowerChars text))
    || ("no relevant information".data.isPrefixOf (lowerChars text))

/-- `verify_contexts` (lines 354-366): trivially true when verification is
disabled, otherwise the "yes"-substring test on the collaborator response. -/
def verify_contexts (cfg : KylinCfg) (cl : Collabs) (ctxs : List KCtx)
    (question : String) : Bool :=
  if !cfg.verify then true
  else containsYes (cl.verifyResp ctxs question)

/-- `summarize_contexts` (lines 368-399): one summary response per context
(the prompt carries the context's `full_text` and the question); a
not-relevant response nulls the text, any other response becomes the text.
Works on a copy, as the source's `deepcopy`. -/
def summarize_contexts (cl : Collabs) (ctxs : List KCtx) (question : String) :
    List KCtx :=
  ctxs.map (fun c =>
    let summ := cl.summResp c.full_text question
    if not_relevant summ then { c with text := none }
    else { c with text := some summ })

/-- Lines 284-286: take `indices` when present, otherwise `urls`; when
neither is present the `assert` fails. -/
def postProcessIds (raw : RawResult) : Except KErr (List String) :=
  match raw.indices with
  | some is => .ok is
  | none =>
      match raw.urls with
      | some us => .ok us
      | none => .error .assertionError

/-- Lines 287-296: one context dict per `zip(ctxs["texts"], ctxs["indices"])`
pair; `text` and `full_text` both start as the raw text. -/
def buildCtxs (rid q : String) (texts ids : List String) : List KCtx :=
  (texts.zip ids).map (fun ts => ⟨q, rid, some ts.1, ts.1, ts.2⟩)

/-- `[i[idx] for i in retrieval_history[:turn_num]]` (line 269): the
`idx`-th record of each completed prior turn; a missing index raises, as
Python's indexing would. -/
def failingRecords : List (List RoundRecord) → Nat → Except KErr (List RoundRecord)
  | [], _ => .ok []
  | turn :: rest, idx =>
      match turn.get? idx with
      | none => .error .indexError
      | some r =>
          match failingRecords rest idx with
          | .error e => .error e
          | .ok rs => .ok (r :: rs)

/-- Lines 267-276: when rewriting is enabled, collect the failing history
for this retriever position and ask the rewrite collaborator (which receives
the prior queries, line 338); otherwise search the atomic query unchanged.
Also reports the failing-query list handed to the collaborator (`none` when
rewriting is disabled), so claims about it can be stated. -/
def rewriteStep (cfg : KylinCfg) (cl : Collabs) (question : String)
    (history : List (List RoundRecord)) (idx : Nat) (rid : String) :
    Except KErr (String × Option (List String)) :=
  if cfg.rewrite then
    match failingRecords history idx with
    | .error e => .error e
    | .ok fh =>
        .ok (cl.rewriteResp question rid (fh.map (fun r => r.query)),
             some (fh.map (fun r => r.query)))
  else .ok (question, none)

/-- The per-retriever body of the round loop (lines 266-311): rewrite,
search, normalize identifier fields, build contexts, record, and — with
summarization on — filter the aggregated contexts by non-null text. -/
def processRetriever (cfg : KylinCfg) (cl : Collabs) (question : String)
    (history : List (List RoundRecord)) (idx : Nat) (rid : String) :
    Except KErr (RoundRecord × List KCtx × Option (List String)) :=
  match rewriteStep cfg cl question history idx rid with
  | .error e => .error e
  | .ok (q2s, rlog) =>
      match postProcessIds (cl.searchFn rid q2s) with
      | .error e => .error e
      | .ok ids =>
          let ctxs := buildCtxs rid q2s (cl.searchFn rid q2s).texts ids
          if cfg.summary_context then
            let summarized := summarize_contexts cl ctxs question
            .ok (⟨rid, q2s, ctxs, some summarized⟩,
                 summarized.filter (fun c => c.text.isSome), rlog)
          else
            .ok (⟨rid, q2s, ctxs, none⟩, ctxs, rlog)

/-- One full turn over the configured retrievers in order (the `for idx,
retriever in enumerate(self.retrievers)` loop, lines 266-311), returning
this turn's records, the aggregated surviving contexts, and the
rewrite-feedback log. -/
def runTurn (cfg : KylinCfg) (cl : Collabs) (question : String)
    (history : List (List RoundRecord)) :
    List String → Nat →
      Except KErr (List RoundRecord × List KCtx × List (Option (List String)))
  | [], _ => .ok ([], [], [])
  | rid :: rest, idx =>
      match processRetriever cfg cl question history idx rid with
      | .error e => .error e
      | .ok (r1, cs1, lg1) =>
          match runTurn cfg cl question history rest (idx + 1) with
          | .error e => .error e
          | .ok (recs, cs, lgs) => .ok (r1 :: recs, cs1 ++ cs, lg1 :: lgs)

/-- `total_turn_num = 3 if self.verify else 1` (line 260). -/
def total_turn_num (cfg : KylinCfg) : Nat :=
  if cfg.verify then 3 else 1

/-- The `while turn_num < total_turn_num` loop of lines 262-317, with the
remaining turn count as fuel: run a turn, stop on verification success, and
when the turns are exhausted return the last turn's contexts together with
the full history (the loop simply falls through, lines 317-318). -/
def innerLoop (cfg : KylinCfg) (cl : Collabs) (rets : List String)
    (question : String) :
    Nat → List (List RoundRecord) → List KCtx →
      List (List (Option (List String))) →
      Except KErr
        (List KCtx × List (List RoundRecord) × List (List (Option (List String))))
  | 0, history, lastCtxs, logs => .ok (lastCtxs, history, logs)
  | fuel + 1, history, _, logs =>
      match runTurn cfg cl question history rets 0 with
      | .error e => .error e
      | .ok (recs, ctxs, lg) =>
          if verify_contexts cfg cl ctxs question then
            .ok (ctxs, history ++ [recs], logs ++ [lg])
          else
            innerLoop cfg cl rets question fuel (history ++ [recs]) ctxs (logs ++ [lg])

/-- `KylinLLMSearcher.inner_search` (lines 248-318), instrumented with the
rewrite-feedback log. -/
def inner_search (cfg : KylinCfg) (cl : Collabs) (rets : List String)
    (question : String) :
    Except KErr
      (List KCtx × List (List RoundRecord) × List (List (Option (List String)))) :=
  innerLoop cfg cl rets question (total_turn_num cfg) [] [] []

/-- A concrete well-formed result group. -/
def wRaw : RawResult := ⟨["text a"], some ["idx a"], none⟩

/-- A concrete result group carrying only `urls`. -/
def wRawUrls : RawResult := ⟨["text a"], none, some ["url a"]⟩

/-- A concrete malformed result group: neither `indices` nor `urls`. -/
def wRawBad : RawResult := ⟨["text a"], none, none⟩

/-- Concrete collaborators whose verification response never contains
"yes" (a verification collaborator that always fails). -/
def wCollabs : Collabs :=
  ⟨fun info _ _ => info, fun _ _ => wRaw, fun _ _ => "summary a", fun _ _ => "no"⟩

/-- Concrete collaborators with a non-constant rewriter (appends `"r"`). -/
def rwCollabs : Collabs :=
  ⟨fun info _ _ => info ++ "r", fun _ _ => wRaw, fun _ _ => "summary a",
   fun _ _ => "no"⟩

/-- Concrete collaborators whose summaries are relevant. -/
def sumCollabs : Collabs :=
  ⟨fun info _ _ => info, fun _ _ => wRaw, fun _ _ => "relevant stuff",
   fun _ _ => "no"⟩

/-- Concrete collaborators whose summary response begins with the phrase
"does not provide" but not with "context does not provide". -/
def cexCollabs : Collabs :=
  ⟨fun info _ _ => info, fun _ _ => wRaw,
   fun _ _ => "does not provide the answer", fun _ _ => "no"⟩

/-- Concrete collaborators returning a malformed result group. -/
def badCollabs : Collabs :=
  ⟨fun info _ _ => info, fun _ _ => wRawBad, fun _ _ => "summary a",
   fun _ _ => "no"⟩

/-- Verification on, rewriting off, summarization off. -/
def cfgV : KylinCfg := ⟨true, false, false⟩

/-- Everything off. -/
def cfgOff : KylinCfg := ⟨false, false, false⟩

/-- Rewriting only. -/
def cfgRw : KylinCfg := ⟨false, true, false⟩

/-- Summarization only. -/
def cfgSum : KylinCfg := ⟨false, false, true⟩

end Kylin

namespace LibCache

lemma mergeRes_nil {R : Type} : ∀ l : List (Option R), mergeRes l [] = l
  | [] => rfl
  | some _ :: rest => by simp [mergeRes, mergeRes_nil rest]
  | none :: rest => by simp [mergeRes, mergeRes_nil rest]

lemma applyWrites_fst {σ C Q P R : Type}
    (ops : CacheOps σ (C × Q × P) (R × (C × Q × P))) (keys : List (C × Q × P)) :
    ∀ (l : List (Nat × R)) (res : List (Option R)) (s : σ),
      (applyWrites ops keys (res, s) l).1 = setAll res l
  | [], _, _ => rfl
  | p :: l, res, s => by
      simp only [applyWrites, List.foldl_cons, setAll]
      exact applyWrites_fst ops keys l _ _

lemma enumFrom_filterMap_none_shift {R : Type} :
    ∀ (l : List (Option R)) (n : Nat),
      (l.enumFrom (n + 1)).filterMap
          (fun p => if p.2.isNone then some p.1 else none)
        = ((l.enumFrom n).filterMap
            (fun p => if p.2.isNone then some p.1 else none)).map (· + 1)
  | [], _ => rfl
  | a :: l, n => by
      cases a with
      | none =>
          simp [List.enumFrom_cons, List.filterMap_cons]
          exact enumFrom_filterMap_none_shift l (n + 1)
      | some r =>
          simp [List.enumFrom_cons, List.filterMap_cons]
          exact enumFrom_filterMap_none_shift l (n + 1)

lemma noneIdx_cons_some {R : Type} (r : R) (rest : List (Option R)) :
    noneIdx (some r :: rest) = (noneIdx rest).map (· + 1) := by
  simp only [noneIdx, List.enum]
  rw [List.enumFrom_cons]
  simp [List.filterMap_cons]
  exact enumFrom_filterMap_none_shift rest 0

lemma noneIdx_cons_none {R : Type} (rest : List (Option R)) :
    noneIdx (none :: rest) = 0 :: (noneIdx rest).map (· + 1) := by
  simp only [noneIdx, List.enum]
  rw [List.enumFrom_cons]
  simp [List.filterMap_cons]
  exact enumFrom_filterMap_none_shift rest 0

lemma setAll_shift {R : Type} (a : Option R) :
    ∀ (l : List (Nat × R)) (rest : List (Option R)),
      setAll (a :: rest) (l.map (fun p => (p.1 + 1, p.2))) = a :: setAll rest l
  | [], _ => rfl
  | p :: l, rest => by
      simp only [List.map_cons, setAll, List.foldl_cons, List.set]
      exact setAll_shift a l _

lemma zip_map_add_one {R : Type} :
    ∀ (xs : List Nat) (upd : List R),
      (xs.map (· + 1)).zip upd = (xs.zip upd).map (fun p => (p.1 + 1, p.2))
  | [], _ => by simp
  | _ :: _, [] => by simp
  | x :: xs, u :: upd => by simp [zip_map_add_one xs upd]

lemma setAll_noneIdx {R : Type} :
    ∀ (res : List (Option R)) (upd : List R),
      setAll res ((noneIdx res).zip upd) = mergeRes res upd
  | [], upd => by simp [noneIdx, setAll, mergeRes]
  | some r :: rest, upd => by
      rw [noneIdx_cons_some, zip_map_add_one, setAll_shift]
      rw [setAll_noneIdx rest upd]
      rfl
  | none :: rest, [] => by
      rw [noneIdx_cons_none]
      simp only [List.zip_nil_right]
      show (none :: rest : List (Option R)) = mergeRes (none :: rest) []
      rw [mergeRes_nil]
  | none :: rest, u :: upd => by
      rw [noneIdx_cons_none]
      show setAll ((none :: rest).set 0 (some u)) ((noneIdx rest).map (· + 1) |>.zip upd)
        = mergeRes (none :: rest) (u :: upd)
      simp only [List.set]
      rw [zip_map_add_one, setAll_shift, setAll_noneIdx rest upd]
      rfl

lemma zip_map_filterMap {Q R : Type} (h : Q → Option R) :
    ∀ qs : List Q,
      (qs.zip (qs.map h)).filterMap (fun qr => if qr.2.isNone then some qr.1 else none)
        = qs.filter (fun q => (h q).isNone)
  | [] => rfl
  | q :: qs => by
      cases hq : (h q).isNone <;>
        simp [List.filterMap_cons, List.filter_cons, hq, zip_map_filterMap h qs]

lemma assertAllSome_map_somes {Q R : Type} (h : Q → Option R) (g : Q → R) :
    ∀ qs : List Q, (∀ q ∈ qs, h q = some (g q)) →
      assertAllSome (qs.map h) = .ok (qs.map g)
  | [], _ => rfl
  | q :: qs, hall => by
      have hq := hall q (List.mem_cons_self q qs)
      simp only [List.map_cons, hq, assertAllSome,
        assertAllSome_map_somes h g qs (fun x hx => hall x (List.mem_cons_of_mem q hx))]
      rfl

lemma assertAllSome_somes {R : Type} :
    ∀ l : List R, assertAllSome (l.map some) = .ok l
  | [] => rfl
  | r :: l => by simp [assertAllSome, assertAllSome_somes l, Except.map]

lemma mergeRes_all_none {α R : Type} :
    ∀ (xs : List α) (upd : List R), upd.length = xs.length →
      mergeRes (xs.map (fun _ => none)) upd = upd.map some
  | [], [], _ => rfl
  | [], _ :: _, h => by simp at h
  | _ :: _, [], h => by simp at h
  | _ :: xs, u :: upd, h => by
      simp only [List.map_cons, mergeRes, List.length_cons] at *
      exact congrArg _ (mergeRes_all_none xs upd (by omega))

lemma mergeRes_all_somes {R : Type} :
    ∀ (res : List (Option R)) (upd : List R),
      (∀ x ∈ res, x.isSome) → mergeRes res upd = res
  | [], _, _ => rfl
  | some r :: rest, upd, h => by
      simp only [mergeRes]
      exact congrArg _
        (mergeRes_all_somes rest upd (fun x hx => h x (List.mem_cons_of_mem _ hx)))
  | none :: rest, upd, h => by
      exact absurd (h none (List.mem_cons_self _ _)) (by simp)

lemma mergeRes_spec {Q R : Type} (h : Q → Option R) :
    ∀ (qs : List Q) (upd : List R),
      upd.length = (qs.filter (fun q => (h q).isNone)).length →
      ∃ out, assertAllSome (mergeRes (qs.map h) upd) = .ok out ∧
        out.length = qs.length ∧
        (∀ i q r, qs.get? i = some q → h q = some r → out.get? i = some r) ∧
        (∀ i q, qs.get? i = some q → h q = none →
          out.get? i = upd.get? ((qs.take i).filter (fun x => (h x).isNone)).length)
  | [], upd, _ => by
      refine ⟨[], rfl, rfl, ?_, ?_⟩ <;> intro i q <;> simp
  | q :: qs, upd, hupd => by
      cases hq : h q with
      | some r =>
          have hupd' : upd.length = (qs.filter (fun x => (h x).isNone)).length := by
            rwa [List.filter_cons, if_neg (by simp [hq])] at hupd
          obtain ⟨out, hok, hlen, hhit, hmiss⟩ := mergeRes_spec h qs upd hupd'
          refine ⟨r :: out, ?_, by simp [hlen], ?_, ?_⟩
          · simp only [List.map_cons, hq, mergeRes, assertAllSome, hok, Except.map]
          · intro i x rx hx hrx
            cases i with
            | zero =>
                simp only [List.get?_cons_zero, Option.some.injEq] at hx
                subst hx
                rw [hq] at hrx
                simp only [Option.some.injEq] at hrx
                simp [hrx]
            | succ i =>
                simp only [List.get?_cons_succ] at hx ⊢
                exact hhit i x rx hx hrx
          · intro i x hx hnx
            cases i with
            | zero =>
                simp only [List.get?_cons_zero, Option.some.injEq] at hx
                subst hx
                rw [hq] at hnx
                exact absurd hnx (by simp)
            | succ i =>
                rw [List.get?_cons_succ] at hx
                rw [List.get?_cons_succ, List.take_succ_cons, List.filter_cons,
                  if_neg (show ¬((h q).isNone = true) by simp [hq])]
                exact hmiss i x hx hnx
      | none =>
          rw [List.filter_cons, if_pos (by simp [hq])] at hupd
          cases upd with
          | nil => simp at hupd
          | cons u us =>
              have hupd' : us.length = (qs.filter (fun x => (h x).isNone)).length := by
                simpa using hupd
              obtain ⟨out, hok, hlen, hhit, hmiss⟩ := mergeRes_spec h qs us hupd'
              refine ⟨u :: out, ?_, by simp [hlen], ?_, ?_⟩
              · simp only [List.map_cons, hq, mergeRes, assertAllSome, hok, Except.map]
              · intro i x rx hx hrx
                cases i with
                | zero =>
                    simp only [List.get?_cons_zero, Option.some.injEq] at hx
                    subst hx
                    rw [hq] at hrx
                    exact absurd hrx (by simp)
                | succ i =>
                    simp only [List.get?_cons_succ] at hx ⊢
                    exact hhit i x rx hx hrx
              · intro i x hx hnx
                cases i with
                | zero => simp
                | succ i =>
                    rw [List.get?_cons_succ] at hx
                    rw [List.get?_cons_succ, List.take_succ_cons, List.filter_cons,
                      if_pos (show (h q).isNone = true by simp [hq]),
                      List.length_cons, List.get?_cons_succ]
                    exact hmiss i x hx hnx

lemma mergeRes_map_pointwise {Q R : Type} (h : Q → Option R) (g : Q → R)
    (hc : ∀ q r, h q = some r → r = g q) :
    ∀ qs : List Q,
      mergeRes (qs.map h) ((qs.filter (fun q => (h q).isNone)).map g)
        = qs.map (fun q => some (g q))
  | [] => rfl
  | q :: qs => by
      cases hq : h q with
      | some r =>
          have hgq : r = g q := hc q r hq
          subst hgq
          rw [List.filter_cons, if_neg (show ¬((h q).isNone = true) by simp [hq])]
          simp only [List.map_cons, hq, mergeRes]
          exact congrArg _ (mergeRes_map_pointwise h g hc qs)
      | none =>
          rw [List.filter_cons, if_pos (show (h q).isNone = true by simp [hq])]
          simp only [List.map_cons, hq, mergeRes]
          exact congrArg _ (mergeRes_map_pointwise h g hc qs)

lemma cacheHit_comp {σ C Q P R : Type}
    (ops : CacheOps σ (C × Q × P) (R × (C × Q × P))) (store : σ) (cfg : C)
    (p : P) (query : List Q) :
    (query.map (fun q => hashkey cfg q p)).map
        (fun k => (ops.get store k).map (fun v => v.1))
      = query.map (cacheHit ops store cfg p) := by
  rw [List.map_map]
  rfl

/-- The cache-enabled path, re-expressed through `cacheHit`, `missQueries`
and `mergeRes`. -/
lemma cachedSearch_eq {σ C Q P R : Type}
    (ops : CacheOps σ (C × Q × P) (R × (C × Q × P)))
    (func : List Q → P → List R) (cfg : C) (query : List Q) (p : P) (store : σ) :
    cachedSearch ops func cfg query p store =
      if (missQueries ops store cfg p query).isEmpty then
        ⟨assertAllSome (query.map (cacheHit ops store cfg p)), store, []⟩
      else
        ⟨assertAllSome (mergeRes (query.map (cacheHit ops store cfg p))
            (func (missQueries ops store cfg p query) p)),
         (applyWrites ops (query.map (fun q => hashkey cfg q p))
            (query.map (cacheHit ops store cfg p), store)
            ((noneIdx (query.map (cacheHit ops store cfg p))).zip
              (func (missQueries ops store cfg p query) p))).2,
         [missQueries ops store cfg p query]⟩ := by
  simp only [cachedSearch]
  rw [cacheHit_comp]
  rw [zip_map_filterMap (cacheHit ops store cfg p) query]
  by_cases hmq : (missQueries ops store cfg p query).isEmpty
  · rw [if_pos, if_pos hmq]
    exact hmq
  · rw [if_neg, if_neg hmq]
    · rw [applyWrites_fst, setAll_noneIdx]
      have hmiss : query.filter (fun q => (cacheHit ops store cfg p q).isNone)
          = missQueries ops store cfg p query := rfl
      rw [hmiss]
    · exact hmq

lemma cachedSearch_output {σ C Q P R : Type}
    (ops : CacheOps σ (C × Q × P) (R × (C × Q × P)))
    (func : List Q → P → List R) (cfg : C) (query : List Q) (p : P) (store : σ) :
    (cachedSearch ops func cfg query p store).output
      = assertAllSome (mergeRes (query.map (cacheHit ops store cfg p))
          (func (missQueries ops store cfg p query) p)) := by
  rw [cachedSearch_eq]
  by_cases hmq : (missQueries ops store cfg p query).isEmpty
  · rw [if_pos hmq]
    have hall : ∀ x ∈ query.map (cacheHit ops store cfg p), x.isSome := by
      intro x hx
      obtain ⟨q, hq, rfl⟩ := List.mem_map.mp hx
      have := (List.isEmpty_iff.mp hmq)
      have hq' := List.filter_eq_nil_iff.mp this q hq
      simpa [Option.isSome_iff_ne_none] using hq'
    rw [mergeRes_all_somes _ _ hall]
  · rw [if_neg hmq]

lemma cachedSearch_calls {σ C Q P R : Type}
    (ops : CacheOps σ (C × Q × P) (R × (C × Q × P)))
    (func : List Q → P → List R) (cfg : C) (query : List Q) (p : P) (store : σ) :
    (cachedSearch ops func cfg query p store).calls
      = if (missQueries ops store cfg p query).isEmpty then []
        else [missQueries ops store cfg p query] := by
  rw [cachedSearch_eq]
  by_cases hmq : (missQueries ops store cfg p query).isEmpty
  · rw [if_pos hmq, if_pos hmq]
  · rw [if_neg hmq, if_neg hmq]

lemma cachedSearch_store {σ C Q P R : Type}
    (ops : CacheOps σ (C × Q × P) (R × (C × Q × P)))
    (func : List Q → P → List R) (cfg : C) (query : List Q) (p : P) (store : σ) :
    (cachedSearch ops func cfg query p store).store
      = if (missQueries ops store cfg p query).isEmpty then store
        else
          (applyWrites ops (query.map (fun q => hashkey cfg q p))
            (query.map (cacheHit ops store cfg p), store)
            ((noneIdx (query.map (cacheHit ops store cfg p))).zip
              (func (missQueries ops store cfg p query) p))).2 := by
  rw [cachedSearch_eq]
  by_cases hmq : (missQueries ops store cfg p query).isEmpty
  · rw [if_pos hmq, if_pos hmq]
  · rw [if_neg hmq, if_neg hmq]

end LibCache

namespace LibCache

lemma missQueries_eq {σ C Q P R : Type}
    (ops : CacheOps σ (C × Q × P) (R × (C × Q × P))) (store : σ) (cfg : C)
    (p : P) (query : List Q) :
    missQueries ops store cfg p query
      = query.filter (fun q => (cacheHit ops store cfg p q).isNone) := rfl

lemma noneIdx_map_length {Q R : Type} (h : Q → Option R) :
    ∀ qs : List Q,
      (noneIdx (qs.map h)).length = (qs.filter (fun q => (h q).isNone)).length
  | [] => rfl
  | q :: qs => by
      cases hq : h q with
      | some r =>
          rw [List.map_cons, hq, noneIdx_cons_some, List.length_map,
            List.filter_cons, if_neg (show ¬((h q).isNone = true) by simp [hq])]
          exact noneIdx_map_length h qs
      | none =>
          rw [List.map_cons, hq, noneIdx_cons_none,
            List.filter_cons, if_pos (show (h q).isNone = true by simp [hq]),
            List.length_cons, List.length_cons, List.length_map]
          exact congrArg _ (noneIdx_map_length h qs)

lemma mem_noneIdx {R : Type} :
    ∀ (res : List (Option R)) (i : Nat), i ∈ noneIdx res ↔ res.get? i = some none
  | [], i => by simp [noneIdx]
  | some r :: rest, i => by
      rw [noneIdx_cons_some]
      constructor
      · intro hi
        obtain ⟨j, hj, rfl⟩ := List.mem_map.mp hi
        rw [List.get?_cons_succ]
        exact (mem_noneIdx rest j).mp hj
      · intro hg
        cases i with
        | zero => simp at hg
        | succ j =>
            rw [List.get?_cons_succ] at hg
            exact List.mem_map.mpr ⟨j, (mem_noneIdx rest j).mpr hg, rfl⟩
  | none :: rest, i => by
      rw [noneIdx_cons_none]
      cases i with
      | zero => simp
      | succ j =>
          rw [List.get?_cons_succ]
          constructor
          · intro hmem
            rcases List.mem_cons.mp hmem with h0 | hmapmem
            · exact absurd h0 (by omega)
            · obtain ⟨j2, hj2, heq⟩ := List.mem_map.mp hmapmem
              have hj : j2 = j := by omega
              subst hj
              exact (mem_noneIdx rest j2).mp hj2
          · intro hg
            exact List.mem_cons.mpr
              (Or.inr (List.mem_map.mpr ⟨j, (mem_noneIdx rest j).mpr hg, rfl⟩))

lemma zip_mem_left {α β : Type} :
    ∀ (l1 : List α) (l2 : List β) (a : α), a ∈ l1 → l1.length = l2.length →
      ∃ b, (a, b) ∈ l1.zip l2
  | [], _, a, ha, _ => absurd ha (by simp)
  | _ :: _, [], _, _, hlen => by simp at hlen
  | x :: l1, y :: l2, a, ha, hlen => by
      rcases List.mem_cons.mp ha with rfl | ha2
      · exact ⟨y, by simp⟩
      · obtain ⟨b, hb⟩ := zip_mem_left l1 l2 a ha2 (by simpa using hlen)
        exact ⟨b, List.mem_cons.mpr (Or.inr hb)⟩

lemma fnOps_put_isSome {C Q P R : Type} [DecidableEq C] [DecidableEq Q] [DecidableEq P]
    (s : (C × Q × P) → Option (R × (C × Q × P))) (k : C × Q × P)
    (v : R × (C × Q × P)) (k2 : C × Q × P) (h : (s k2).isSome) :
    (((fnOps).put s k v) k2).isSome := by
  show (if k2 = k then some v else s k2).isSome
  by_cases hk : k2 = k
  · rw [if_pos hk]
    rfl
  · rw [if_neg hk]
    exact h

lemma applyWrites_snd_mono {C Q P R : Type}
    [DecidableEq C] [DecidableEq Q] [DecidableEq P] (keys : List (C × Q × P)) :
    ∀ (l : List (Nat × R)) (res : List (Option R))
      (s : (C × Q × P) → Option (R × (C × Q × P))) (k : C × Q × P),
      (s k).isSome → (((applyWrites fnOps keys (res, s) l).2) k).isSome
  | [], _, _, _, h => h
  | pr :: l, res, s, k, h => by
      have hstep : ((match keys.get? pr.1 with
          | some k1 => (fnOps).put s k1 (pr.2, k1)
          | none => s) k).isSome := by
        cases hk : keys.get? pr.1 with
        | some k1 => exact fnOps_put_isSome s k1 (pr.2, k1) k h
        | none => exact h
      exact applyWrites_snd_mono keys l _ _ k hstep

lemma applyWrites_snd_cover {C Q P R : Type}
    [DecidableEq C] [DecidableEq Q] [DecidableEq P] (keys : List (C × Q × P)) :
    ∀ (l : List (Nat × R)) (res : List (Option R))
      (s : (C × Q × P) → Option (R × (C × Q × P))) (n : Nat) (r : R) (k : C × Q × P),
      (n, r) ∈ l → keys.get? n = some k →
      (((applyWrites fnOps keys (res, s) l).2) k).isSome
  | [], _, _, _, _, _, hmem, _ => absurd hmem (by simp)
  | pr :: l, res, s, n, r, k, hmem, hk => by
      rcases List.mem_cons.mp hmem with heq | hmem2
      · have h1 : keys.get? pr.1 = some k := by rw [← heq]; exact hk
        have hstep : ((match keys.get? pr.1 with
            | some k1 => (fnOps).put s k1 (pr.2, k1)
            | none => s) k).isSome := by
          rw [h1]
          show ((if k = k then some (pr.2, k) else s k)).isSome
          rw [if_pos rfl]
          rfl
        exact applyWrites_snd_mono keys l _ _ k hstep
      · exact applyWrites_snd_cover keys l _ _ n r k hmem2 hk

/-- After a cache-enabled call whose underlying operation returns one
result per query, every query of the batch is a cache hit in the
post-call store. -/
lemma cachedSearch_post_hits {C Q P R : Type}
    [DecidableEq C] [DecidableEq Q] [DecidableEq P]
    (func : List Q → P → List R) (cfg : C) (query : List Q) (p : P)
    (store : (C × Q × P) → Option (R × (C × Q × P)))
    (hlen : ∀ qs, (func qs p).length = qs.length) :
    ∀ q ∈ query,
      (cacheHit fnOps (cachedSearch fnOps func cfg query p store).store cfg p q).isSome := by
  intro q hq
  rw [cachedSearch_store]
  by_cases hmq : (missQueries fnOps store cfg p query).isEmpty
  · rw [if_pos hmq]
    have h0 := List.filter_eq_nil_iff.mp (List.isEmpty_iff.mp hmq) q hq
    simpa [Option.isSome_iff_ne_none] using h0
  · rw [if_neg hmq]
    obtain ⟨i, hi⟩ := List.mem_iff_get?.mp hq
    cases hhit : cacheHit fnOps store cfg p q with
    | some v =>
        have hs : (store (hashkey cfg q p)).isSome := by
          have : ((store (hashkey cfg q p)).map (fun v => v.1)).isSome := by
            rw [show ((store (hashkey cfg q p)).map (fun v => v.1))
                = cacheHit fnOps store cfg p q from rfl, hhit]
            rfl
          simpa using this
        have hres := applyWrites_snd_mono
          (query.map (fun q => hashkey cfg q p))
          ((noneIdx (query.map (cacheHit fnOps store cfg p))).zip
            (func (missQueries fnOps store cfg p query) p))
          (query.map (cacheHit fnOps store cfg p)) store (hashkey cfg q p) hs
        simpa [cacheHit, fnOps] using hres
    | none =>
        have hres0 : (query.map (cacheHit fnOps store cfg p)).get? i = some none := by
          rw [List.get?_map, hi]
          simp [hhit]
        have himem : i ∈ noneIdx (query.map (cacheHit fnOps store cfg p)) :=
          (mem_noneIdx _ i).mpr hres0
        have hlens : (noneIdx (query.map (cacheHit fnOps store cfg p))).length
            = (func (missQueries fnOps store cfg p query) p).length := by
          rw [noneIdx_map_length, hlen]
          rfl
        obtain ⟨r, hr⟩ := zip_mem_left _ _ i himem hlens
        have hkey : (query.map (fun x => hashkey cfg x p)).get? i
            = some (hashkey cfg q p) := by
          rw [List.get?_map, hi]
          rfl
        have hres := applyWrites_snd_cover
          (query.map (fun x => hashkey cfg x p)) _
          (query.map (cacheHit fnOps store cfg p)) store i r (hashkey cfg q p) hr hkey
        simpa [cacheHit, fnOps] using hres

end LibCache

namespace LibCache

lemma batched_cache_enabled {σ C Q P R : Type}
    (ops : CacheOps σ (C × Q × P) (R × (C × Q × P)))
    (func : List Q → P → List R) (cfg : C) (input : QueryInput Q) (p : P)
    (store : σ) :
    batched_cache ops func cfg input (some false) false p store
      = cachedSearch ops func cfg (queryList input) p store := rfl

lemma batched_cache_disabled {σ C Q P R : Type}
    (ops : CacheOps σ (C × Q × P) (R × (C × Q × P)))
    (func : List Q → P → List R) (cfg : C) (input : QueryInput Q) (p : P)
    (store : σ) :
    batched_cache ops func cfg input (some true) false p store
      = ⟨.ok (func (queryList input) p), store, [queryList input]⟩ := rfl

/-- Claim C1: with a deterministic, pointwise underlying operation and a
cache store coherent with it (the spec's cache-entry invariant), the
cache-enabled call returns exactly the per-query result sequence of the
cache-disabled call that delegates the whole batch directly. -/
theorem cache_transparent {σ C Q P R : Type}
    (ops : CacheOps σ (C × Q × P) (R × (C × Q × P)))
    (func : List Q → P → List R) (cfg : C) (input : QueryInput Q) (p : P)
    (store : σ) (g : Q → P → R)
    (hfunc : ∀ qs pp, func qs pp = qs.map (fun q => g q pp))
    (hcoh : ∀ q v, ops.get store (hashkey cfg q p) = some v → v.1 = g q p) :
    (batched_cache ops func cfg input (some false) false p store).output
      = (batched_cache ops func cfg input (some true) false p store).output := by
  rw [batched_cache_enabled, batched_cache_disabled]
  show (cachedSearch ops func cfg (queryList input) p store).output
    = .ok (func (queryList input) p)
  have hcoh2 : ∀ q r, cacheHit ops store cfg p q = some r → r = g q p := by
    intro q r hr
    simp only [cacheHit] at hr
    obtain ⟨v, hv, hv1⟩ := Option.map_eq_some'.mp hr
    rw [← hv1]
    exact hcoh q v hv
  rw [cachedSearch_output, missQueries_eq, hfunc,
    mergeRes_map_pointwise (cacheHit ops store cfg p) (fun q => g q p) hcoh2,
    hfunc]
  exact assertAllSome_map_somes _ _ _ (fun q _ => rfl)

/-- Witness for `cache_transparent` on a concrete batch, empty store. -/
theorem cache_transparent_witness :
    (batched_cache fnOps succSearch () (.batch [5]) (some false) false () natStoreEmpty).output
      = (batched_cache fnOps succSearch () (.batch [5]) (some true) false () natStoreEmpty).output :=
  cache_transparent fnOps succSearch () (.batch [5]) () natStoreEmpty
    (fun q _ => q + 1) (fun _ _ => rfl)
    (fun q v h => by simp [fnOps, natStoreEmpty] at h)

/-- Claim C3: the cache-enabled call returns exactly one result per input
query in the original input order — cached values stay at their position,
the `i`-th miss receives the `i`-th result of the single underlying
invocation — and the underlying operation is invoked exactly on the miss
subset in its original relative order (or not at all). -/
theorem order_preservation {σ C Q P R : Type}
    (ops : CacheOps σ (C × Q × P) (R × (C × Q × P)))
    (func : List Q → P → List R) (cfg : C) (query : List Q) (p : P) (store : σ)
    (hlen : ∀ qs, (func qs p).length = qs.length) :
    ∃ out,
      (batched_cache ops func cfg (.batch query) (some false) false p store).output
        = .ok out
      ∧ out.length = query.length
      ∧ (∀ i q r, query.get? i = some q → cacheHit ops store cfg p q = some r →
          out.get? i = some r)
      ∧ (∀ i q, query.get? i = some q → cacheHit ops store cfg p q = none →
          out.get? i = (func (missQueries ops store cfg p query) p).get?
            ((query.take i).filter
              (fun x => (cacheHit ops store cfg p x).isNone)).length)
      ∧ (batched_cache ops func cfg (.batch query) (some false) false p store).calls
          = (if (missQueries ops store cfg p query).isEmpty then []
             else [missQueries ops store cfg p query]) := by
  have hupd : (func (missQueries ops store cfg p query) p).length
      = (query.filter (fun q => (cacheHit ops store cfg p q).isNone)).length := by
    rw [hlen]
    rfl
  obtain ⟨out, hok, hlen2, hhit, hmiss⟩ :=
    mergeRes_spec (cacheHit ops store cfg p) query
      (func (missQueries ops store cfg p query) p) hupd
  refine ⟨out, ?_, hlen2, hhit, hmiss, ?_⟩
  · rw [batched_cache_enabled]
    show (cachedSearch ops func cfg query p store).output = .ok out
    rw [cachedSearch_output]
    exact hok
  · rw [batched_cache_enabled]
    show (cachedSearch ops func cfg query p store).calls = _
    rw [cachedSearch_calls]

/-- Witness for `order_preservation`: a two-query batch with one hit and
one miss against the stale store. -/
theorem order_preservation_witness :
    ∃ out,
      (batched_cache fnOps succSearch () (.batch [0, 1]) (some false) false () natStoreStale).output
        = .ok out
      ∧ out.length = ([0, 1] : List Nat).length
      ∧ (∀ i q r, ([0, 1] : List Nat).get? i = some q →
          cacheHit fnOps natStoreStale () () q = some r → out.get? i = some r)
      ∧ (∀ i q, ([0, 1] : List Nat).get? i = some q →
          cacheHit fnOps natStoreStale () () q = none →
          out.get? i = (succSearch (missQueries fnOps natStoreStale () () [0, 1]) ()).get?
            (([0, 1] : List Nat).take i |>.filter
              (fun x => (cacheHit fnOps natStoreStale () () x).isNone)).length)
      ∧ (batched_cache fnOps succSearch () (.batch [0, 1]) (some false) false () natStoreStale).calls
          = (if (missQueries fnOps natStoreStale () () [0, 1]).isEmpty then []
             else [missQueries fnOps natStoreStale () () [0, 1]]) :=
  order_preservation fnOps succSearch () [0, 1] () natStoreStale
    (fun qs => by simp [succSearch])

/-- Claim C4: if every query of the batch is a cache hit the underlying
operation is never invoked, and a second call with identical queries and
parameters, run on the store left by a first call, performs no underlying
invocation at all. -/
theorem idempotent_hits {C Q P R : Type}
    [DecidableEq C] [DecidableEq Q] [DecidableEq P]
    (func : List Q → P → List R) (cfg : C) (query : List Q) (p : P)
    (store : (C × Q × P) → Option (R × (C × Q × P)))
    (hlen : ∀ qs, (func qs p).length = qs.length) :
    ((∀ q ∈ query, (cacheHit fnOps store cfg p q).isSome) →
      (batched_cache fnOps func cfg (.batch query) (some false) false p store).calls = [])
    ∧ (batched_cache fnOps func cfg (.batch query) (some false) false p
        ((batched_cache fnOps func cfg (.batch query) (some false) false p store).store)).calls
      = [] := by
  have hcalls : ∀ (s : (C × Q × P) → Option (R × (C × Q × P))),
      (∀ q ∈ query, (cacheHit fnOps s cfg p q).isSome) →
      (batched_cache fnOps func cfg (.batch query) (some false) false p s).calls = [] := by
    intro s hall
    rw [batched_cache_enabled]
    show (cachedSearch fnOps func cfg query p s).calls = []
    rw [cachedSearch_calls]
    have hmq : missQueries fnOps s cfg p query = [] := by
      rw [missQueries_eq]
      refine List.filter_eq_nil_iff.mpr ?_
      intro q hq hno
      have h1 := hall q hq
      rw [Option.isNone_iff_eq_none] at hno
      rw [hno] at h1
      simp at h1
    rw [hmq]
    rfl
  refine ⟨hcalls store, ?_⟩
  refine hcalls _ ?_
  intro q hq
  rw [batched_cache_enabled]
  exact cachedSearch_post_hits func cfg query p store hlen q hq

/-- Witness for `idempotent_hits`: all-hit batch `[0]` against the stale
store, and the repeat-call clause for batch `[0, 1]`. -/
theorem idempotent_hits_witness :
    (((∀ q ∈ ([0] : List Nat), (cacheHit fnOps natStoreStale () () q).isSome) →
      (batched_cache fnOps succSearch () (.batch [0]) (some false) false () natStoreStale).calls = [])
    ∧ (batched_cache fnOps succSearch () (.batch [0]) (some false) false ()
        ((batched_cache fnOps succSearch () (.batch [0]) (some false) false () natStoreStale).store)).calls
      = [])
    ∧ (batched_cache fnOps succSearch () (.batch [0]) (some false) false () natStoreStale).calls
      = [] := by
  have h := idempotent_hits succSearch () [0] () natStoreStale
    (fun qs => by simp [succSearch])
  exact ⟨h, h.1 (by decide)⟩

/-- Claim C7 (spec-modelled store): when the cache store is unreachable —
modelled, per the spec's fail-open requirement, as a store whose reads all
report absent and whose writes store nothing — the wrapper invokes the
underlying operation directly on the whole batch and still returns one
result per query. -/
theorem fail_open {C Q P R : Type} (func : List Q → P → List R) (cfg : C)
    (query : List Q) (p : P)
    (hlen : ∀ qs, (func qs p).length = qs.length) (hne : query ≠ []) :
    (batched_cache (deadOps (R := R) (C := C) (P := P)) func cfg (.batch query)
        (some false) false p ()).output
      = .ok (func query p)
    ∧ (batched_cache deadOps func cfg (.batch query) (some false) false p ()).calls
      = [query]
    ∧ (func query p).length = query.length := by
  have hmq : missQueries (deadOps (C := C) (Q := Q) (P := P) (R := R)) () cfg p query
      = query := by
    rw [missQueries_eq]
    simp [cacheHit, deadOps]
  refine ⟨?_, ?_, hlen query⟩
  · rw [batched_cache_enabled]
    show (cachedSearch deadOps func cfg query p ()).output = .ok (func query p)
    rw [cachedSearch_output, hmq]
    have hmap : query.map (cacheHit deadOps () cfg p)
        = query.map (fun _ => (none : Option R)) := rfl
    rw [hmap, mergeRes_all_none query (func query p) (hlen query),
      assertAllSome_somes]
  · rw [batched_cache_enabled]
    show (cachedSearch deadOps func cfg query p ()).calls = [query]
    rw [cachedSearch_calls, hmq]
    rw [if_neg (by simp [List.isEmpty_iff, hne])]

/-- Witness for `fail_open` on the concrete batch `[7]`. -/
theorem fail_open_witness :
    (batched_cache (deadOps (R := Nat) (C := Unit) (P := Unit)) succSearch ()
        (.batch [7]) (some false) false () ()).output
      = .ok (succSearch [7] ())
    ∧ (batched_cache deadOps succSearch () (.batch [7]) (some false) false () ()).calls
      = [[7]]
    ∧ (succSearch [7] ()).length = ([7] : List Nat).length :=
  fail_open succSearch () [7] () (fun qs => by simp [succSearch]) (by simp)

/-- Claim C8 counterexample: `DISABLE_CACHE` is set (truthy) yet the call
explicitly passes `disable_cache=False`; the wrapper then uses the cache —
it performs no underlying invocation and returns the cached stale value
`99` — instead of delegating the batch, whose direct result would be `[1]`.
So the environment flag does not override the per-call setting. -/
theorem env_flag_cex :
    (batched_cache fnOps succSearch () (.batch [0]) (some false) true () natStoreStale).calls = []
    ∧ (batched_cache fnOps succSearch () (.batch [0]) (some false) true () natStoreStale).output
      = .ok [99]
    ∧ succSearch [0] () = [1] :=
  ⟨rfl, rfl, rfl⟩

/-- Claim C8 (amended): the environment flag acts as the default: any call
that does not pass a per-call `disable_cache` value bypasses the cache
entirely when the flag is truthy — the whole batch is delegated to the
underlying operation, the store is untouched, and the result does not
depend on the store's contents. -/
theorem env_flag_default {σ C Q P R : Type}
    (ops : CacheOps σ (C × Q × P) (R × (C × Q × P)))
    (func : List Q → P → List R) (cfg : C) (input : QueryInput Q) (p : P)
    (store : σ) :
    batched_cache ops func cfg input none true p store
      = ⟨.ok (func (queryList input) p), store, [queryList input]⟩ := rfl

/-- Claim C10: a bare single query behaves exactly as the one-element
batch, and the call yields a one-element result list. -/
theorem single_query_coercion {σ C Q P R : Type}
    (ops : CacheOps σ (C × Q × P) (R × (C × Q × P)))
    (func : List Q → P → List R) (cfg : C) (q : Q) (percall : Option Bool)
    (env : Bool) (p : P) (store : σ)
    (hlen : ∀ qs, (func qs p).length = qs.length) :
    batched_cache ops func cfg (.single q) percall env p store
      = batched_cache ops func cfg (.batch [q]) percall env p store
    ∧ ∃ out,
        (batched_cache ops func cfg (.single q) percall env p store).output = .ok out
        ∧ out.length = 1 := by
  refine ⟨rfl, ?_⟩
  cases hd : effectiveDisableCache percall env with
  | true =>
      refine ⟨func [q] p, ?_, by rw [hlen]; rfl⟩
      show (if effectiveDisableCache percall env = true then
          (⟨.ok (func (queryList (.single q)) p), store,
            [queryList (.single q)]⟩ : BCOut Q R σ)
        else cachedSearch ops func cfg (queryList (.single q)) p store).output
        = .ok (func [q] p)
      rw [if_pos hd]
      rfl
  | false =>
      have hupd : (func (missQueries ops store cfg p [q]) p).length
          = (([q] : List Q).filter
              (fun x => (cacheHit ops store cfg p x).isNone)).length := by
        rw [hlen]
        rfl
      obtain ⟨out, hok, hlen1, _, _⟩ :=
        mergeRes_spec (cacheHit ops store cfg p) [q]
          (func (missQueries ops store cfg p [q]) p) hupd
      refine ⟨out, ?_, by rw [hlen1]; rfl⟩
      show (if effectiveDisableCache percall env = true then
          (⟨.ok (func (queryList (.single q)) p), store,
            [queryList (.single q)]⟩ : BCOut Q R σ)
        else cachedSearch ops func cfg (queryList (.single q)) p store).output
        = .ok out
      rw [if_neg (by simp [hd])]
      show (cachedSearch ops func cfg [q] p store).output = .ok out
      rw [cachedSearch_output]
      exact hok

/-- Witness for `single_query_coercion` at query `3`. -/
theorem single_query_coercion_witness :
    batched_cache fnOps succSearch () (.single 3) none false () natStoreEmpty
      = batched_cache fnOps succSearch () (.batch [3]) none false () natStoreEmpty
    ∧ ∃ out,
        (batched_cache fnOps succSearch () (.single 3) none false () natStoreEmpty).output
          = .ok out
        ∧ out.length = 1 :=
  single_query_coercion fnOps succSearch () 3 none false () natStoreEmpty
    (fun qs => by simp [succSearch])

end LibCache

namespace Kylin

lemma verify_disabled (cfg : KylinCfg) (cl : Collabs) (ctxs : List KCtx)
    (q : String) (h : cfg.verify = false) :
    verify_contexts cfg cl ctxs q = true := by
  simp [verify_contexts, h]

lemma verify_failing (cfg : KylinCfg) (cl : Collabs) (ctxs : List KCtx)
    (q : String) (h : cfg.verify = true)
    (hfail : containsYes (cl.verifyResp ctxs q) = false) :
    verify_contexts cfg cl ctxs q = false := by
  simp [verify_contexts, h, hfail]

lemma failingRecords_ok :
    ∀ (history : List (List RoundRecord)) (idx : Nat),
      (∀ turn ∈ history, idx < turn.length) →
      ∃ fh, failingRecords history idx = .ok fh
  | [], _, _ => ⟨[], rfl⟩
  | turn :: rest, idx, hcond => by
      have h1 : idx < turn.length := hcond turn (List.mem_cons_self _ _)
      obtain ⟨r, hr⟩ : ∃ r, turn[idx]? = some r := by
        cases hg : turn[idx]? with
        | none =>
            rw [List.getElem?_eq_none_iff] at hg
            exact absurd hg (by omega)
        | some r => exact ⟨r, rfl⟩
      obtain ⟨fh, hfh⟩ := failingRecords_ok rest idx
        (fun t ht => hcond t (List.mem_cons_of_mem _ ht))
      exact ⟨r :: fh, by simp [failingRecords, hr, hfh]⟩

lemma failingRecords_spec :
    ∀ (history : List (List RoundRecord)) (idx : Nat) (fh : List RoundRecord),
      failingRecords history idx = .ok fh →
      fh.length = history.length ∧
      ∀ j : Nat, fh[j]? = history[j]?.bind (fun t : List RoundRecord => t[idx]?)
  | [], idx, fh, h => by
      simp only [failingRecords] at h
      injection h with h1
      subst h1
      exact ⟨rfl, fun j => by simp⟩
  | turn :: rest, idx, fh, h => by
      simp only [failingRecords, List.get?_eq_getElem?] at h
      cases hg : turn[idx]? with
      | none =>
          rw [hg] at h
          exact absurd h (by simp)
      | some r =>
          rw [hg] at h
          cases hrec : failingRecords rest idx with
          | error e =>
              rw [hrec] at h
              exact absurd h (by simp)
          | ok rs =>
              rw [hrec] at h
              injection h with h1
              subst h1
              obtain ⟨hl, hp⟩ := failingRecords_spec rest idx rs hrec
              refine ⟨by simp [hl], ?_⟩
              intro j
              cases j with
              | zero => simp [hg]
              | succ j => simp [hp j]

lemma processRetriever_ok (cfg : KylinCfg) (cl : Collabs) (question : String)
    (history : List (List RoundRecord)) (idx : Nat) (rid : String)
    (hwf : ∀ r q, (cl.searchFn r q).indices.isSome ∨ (cl.searchFn r q).urls.isSome)
    (hcond : ∀ turn ∈ history, idx < turn.length) :
    ∃ out, processRetriever cfg cl question history idx rid = .ok out := by
  obtain ⟨q2s, rlog, hrs⟩ :
      ∃ q2s rlog, rewriteStep cfg cl question history idx rid = .ok (q2s, rlog) := by
    cases hr : cfg.rewrite with
    | false => exact ⟨question, none, by simp [rewriteStep, hr]⟩
    | true =>
        obtain ⟨fh, hfh⟩ := failingRecords_ok history idx hcond
        exact ⟨cl.rewriteResp question rid (fh.map (fun r => r.query)),
          some (fh.map (fun r => r.query)), by simp [rewriteStep, hr, hfh]⟩
  obtain ⟨ids, hids⟩ : ∃ ids, postProcessIds (cl.searchFn rid q2s) = .ok ids := by
    rcases hwf rid q2s with h | h
    · obtain ⟨is, his⟩ := Option.isSome_iff_exists.mp h
      exact ⟨is, by simp [postProcessIds, his]⟩
    · cases hind : (cl.searchFn rid q2s).indices with
      | some is => exact ⟨is, by simp [postProcessIds, hind]⟩
      | none =>
          obtain ⟨us, hus⟩ := Option.isSome_iff_exists.mp h
          exact ⟨us, by simp [postProcessIds, hind, hus]⟩
  cases hs : cfg.summary_context with
  | true =>
      refine ⟨(⟨rid, q2s, buildCtxs rid q2s (cl.searchFn rid q2s).texts ids,
        some (summarize_contexts cl
          (buildCtxs rid q2s (cl.searchFn rid q2s).texts ids) question)⟩,
        (summarize_contexts cl
          (buildCtxs rid q2s (cl.searchFn rid q2s).texts ids) question).filter
          (fun c => c.text.isSome), rlog), ?_⟩
      simp [processRetriever, hrs, hids, hs]
  | false =>
      refine ⟨(⟨rid, q2s, buildCtxs rid q2s (cl.searchFn rid q2s).texts ids, none⟩,
        buildCtxs rid q2s (cl.searchFn rid q2s).texts ids, rlog), ?_⟩
      simp [processRetriever, hrs, hids, hs]

lemma runTurn_ok (cfg : KylinCfg) (cl : Collabs) (question : String)
    (hwf : ∀ r q, (cl.searchFn r q).indices.isSome ∨ (cl.searchFn r q).urls.isSome) :
    ∀ (rets : List String) (idx : Nat) (history : List (List RoundRecord)),
      (∀ turn ∈ history, idx + rets.length ≤ turn.length) →
      ∃ recs cs lgs, runTurn cfg cl question history rets idx = .ok (recs, cs, lgs)
        ∧ recs.length = rets.length
  | [], _, _, _ => ⟨[], [], [], rfl, rfl⟩
  | rid :: rest, idx, history, hcond => by
      obtain ⟨⟨r1, cs1, lg1⟩, h1⟩ := processRetriever_ok cfg cl question history idx rid
        hwf (fun t ht => by have := hcond t ht; simp at this ⊢; omega)
      obtain ⟨recs, cs, lgs, h2, hlen⟩ := runTurn_ok cfg cl question hwf rest (idx + 1)
        history (fun t ht => by have := hcond t ht; simp at this ⊢; omega)
      exact ⟨r1 :: recs, cs1 ++ cs, lg1 :: lgs, by simp [runTurn, h1, h2], by simp [hlen]⟩

lemma innerLoop_zero (cfg : KylinCfg) (cl : Collabs) (rets : List String)
    (question : String) (history : List (List RoundRecord)) (ctxs0 : List KCtx)
    (logs0 : List (List (Option (List String)))) :
    innerLoop cfg cl rets question 0 history ctxs0 logs0 = .ok (ctxs0, history, logs0) :=
  rfl

lemma innerLoop_succ_fail (cfg : KylinCfg) (cl : Collabs) (rets : List String)
    (question : String) (fuel : Nat) (history : List (List RoundRecord))
    (ctxs0 : List KCtx) (logs0 : List (List (Option (List String))))
    (recs : List RoundRecord) (ctxs : List KCtx) (lg : List (Option (List String)))
    (hrun : runTurn cfg cl question history rets 0 = .ok (recs, ctxs, lg))
    (hv : verify_contexts cfg cl ctxs question = false) :
    innerLoop cfg cl rets question (fuel + 1) history ctxs0 logs0
      = innerLoop cfg cl rets question fuel (history ++ [recs]) ctxs (logs0 ++ [lg]) := by
  simp [innerLoop, hrun, hv]

lemma innerLoop_succ_pass (cfg : KylinCfg) (cl : Collabs) (rets : List String)
    (question : String) (fuel : Nat) (history : List (List RoundRecord))
    (ctxs0 : List KCtx) (logs0 : List (List (Option (List String))))
    (recs : List RoundRecord) (ctxs : List KCtx) (lg : List (Option (List String)))
    (hrun : runTurn cfg cl question history rets 0 = .ok (recs, ctxs, lg))
    (hv : verify_contexts cfg cl ctxs question = true) :
    innerLoop cfg cl rets question (fuel + 1) history ctxs0 logs0
      = .ok (ctxs, history ++ [recs], logs0 ++ [lg]) := by
  simp [innerLoop, hrun, hv]

lemma innerLoop_succ_err (cfg : KylinCfg) (cl : Collabs) (rets : List String)
    (question : String) (fuel : Nat) (history : List (List RoundRecord))
    (ctxs0 : List KCtx) (logs0 : List (List (Option (List String)))) (e : KErr)
    (hrun : runTurn cfg cl question history rets 0 = .error e) :
    innerLoop cfg cl rets question (fuel + 1) history ctxs0 logs0 = .error e := by
  simp [innerLoop, hrun]

end Kylin

namespace Kylin

lemma map_pair_id {α β : Type} : ∀ l : List (α × β), l.map (fun ts => (ts.1, ts.2)) = l
  | [] => rfl
  | t :: l => by simp [map_pair_id l]

/-- Claim C2: with verification enabled and a verification collaborator that
fails on every turn, `inner_search` performs exactly `total_turn_num = 3`
rounds and returns, without an error, the contexts of the last attempted
round together with the full round history; with verification disabled,
`total_turn_num = 1` and exactly one round is performed, never retried. -/
theorem retry_bound (cl : Collabs) (rets : List String) (question : String)
    (hwf : ∀ r q, (cl.searchFn r q).indices.isSome ∨ (cl.searchFn r q).urls.isSome)
    (hfail : ∀ cs, containsYes (cl.verifyResp cs question) = false) :
    (∀ cfg : KylinCfg, cfg.verify = true →
      total_turn_num cfg = 3 ∧
      ∃ c hist logs, inner_search cfg cl rets question = .ok (c, hist, logs) ∧
        hist.length = 3 ∧
        ∃ recs lgs, runTurn cfg cl question (hist.take 2) rets 0 = .ok (recs, c, lgs) ∧
          hist = hist.take 2 ++ [recs])
    ∧ (∀ cfg : KylinCfg, cfg.verify = false →
      total_turn_num cfg = 1 ∧
      ∃ c hist logs, inner_search cfg cl rets question = .ok (c, hist, logs) ∧
        hist.length = 1 ∧
        ∃ recs lgs, runTurn cfg cl question [] rets 0 = .ok (recs, c, lgs) ∧
          hist = [recs]) := by
  constructor
  · intro cfg hver
    have htot : total_turn_num cfg = 3 := by simp [total_turn_num, hver]
    obtain ⟨r1, c1, l1, h1, hlen1⟩ := runTurn_ok cfg cl question hwf rets 0 [] (by simp)
    obtain ⟨r2, c2, l2, h2, hlen2⟩ := runTurn_ok cfg cl question hwf rets 0 [r1]
      (by intro t ht; simp at ht; subst ht; omega)
    obtain ⟨r3, c3, l3, h3, hlen3⟩ := runTurn_ok cfg cl question hwf rets 0 [r1, r2]
      (by intro t ht; simp at ht; rcases ht with rfl | rfl <;> omega)
    have hv1 := verify_failing cfg cl c1 question hver (hfail c1)
    have hv2 := verify_failing cfg cl c2 question hver (hfail c2)
    have hv3 := verify_failing cfg cl c3 question hver (hfail c3)
    have e0 : inner_search cfg cl rets question
        = innerLoop cfg cl rets question 3 [] [] [] := by
      show innerLoop cfg cl rets question (total_turn_num cfg) [] [] []
        = innerLoop cfg cl rets question 3 [] [] []
      rw [htot]
    have e1 : innerLoop cfg cl rets question 3 [] [] []
        = innerLoop cfg cl rets question 2 [r1] c1 [l1] := by
      have := innerLoop_succ_fail cfg cl rets question 2 [] [] [] r1 c1 l1 h1 hv1
      simpa using this
    have e2 : innerLoop cfg cl rets question 2 [r1] c1 [l1]
        = innerLoop cfg cl rets question 1 [r1, r2] c2 [l1, l2] := by
      have := innerLoop_succ_fail cfg cl rets question 1 [r1] c1 [l1] r2 c2 l2 h2 hv2
      simpa using this
    have e3 : innerLoop cfg cl rets question 1 [r1, r2] c2 [l1, l2]
        = innerLoop cfg cl rets question 0 [r1, r2, r3] c3 [l1, l2, l3] := by
      have := innerLoop_succ_fail cfg cl rets question 0 [r1, r2] c2 [l1, l2]
        r3 c3 l3 h3 hv3
      simpa using this
    have heq : inner_search cfg cl rets question = .ok (c3, [r1, r2, r3], [l1, l2, l3]) := by
      rw [e0, e1, e2, e3, innerLoop_zero]
    exact ⟨htot, c3, [r1, r2, r3], [l1, l2, l3], heq, rfl, r3, l3, h3, rfl⟩
  · intro cfg hver
    have htot : total_turn_num cfg = 1 := by simp [total_turn_num, hver]
    obtain ⟨r1, c1, l1, h1, hlen1⟩ := runTurn_ok cfg cl question hwf rets 0 [] (by simp)
    have hv := verify_disabled cfg cl c1 question hver
    have e0 : inner_search cfg cl rets question
        = innerLoop cfg cl rets question 1 [] [] [] := by
      show innerLoop cfg cl rets question (total_turn_num cfg) [] [] []
        = innerLoop cfg cl rets question 1 [] [] []
      rw [htot]
    have e1 : innerLoop cfg cl rets question 1 [] [] [] = .ok (c1, [r1], [l1]) := by
      have := innerLoop_succ_pass cfg cl rets question 0 [] [] [] r1 c1 l1 h1 hv
      simpa using this
    exact ⟨htot, c1, [r1], [l1], e0.trans e1, rfl, r1, l1, h1, rfl⟩

/-- Witness for `retry_bound`: concrete collaborators whose verification
response is "no" on every turn. -/
theorem retry_bound_witness :
    (∀ cfg : KylinCfg, cfg.verify = true →
      total_turn_num cfg = 3 ∧
      ∃ c hist logs, inner_search cfg wCollabs ["r"] "q" = .ok (c, hist, logs) ∧
        hist.length = 3 ∧
        ∃ recs lgs, runTurn cfg wCollabs "q" (hist.take 2) ["r"] 0 = .ok (recs, c, lgs) ∧
          hist = hist.take 2 ++ [recs])
    ∧ (∀ cfg : KylinCfg, cfg.verify = false →
      total_turn_num cfg = 1 ∧
      ∃ c hist logs, inner_search cfg wCollabs ["r"] "q" = .ok (c, hist, logs) ∧
        hist.length = 1 ∧
        ∃ recs lgs, runTurn cfg wCollabs "q" [] ["r"] 0 = .ok (recs, c, lgs) ∧
          hist = [recs]) :=
  retry_bound wCollabs ["r"] "q" (fun _ _ => Or.inl rfl)
    (fun _ => (by decide : containsYes "no" = false))

/-- Claim C9: when a result group has neither `indices` nor `urls` the
round fails with the assertion error (and `inner_search` propagates it
without retrying, whatever the verification setting); when exactly one of
the two fields is present, the built contexts pair the texts with exactly
that field's identifiers, in order. -/
theorem field_normalization :
    (∀ raw : RawResult, raw.indices = none → raw.urls = none →
      postProcessIds raw = .error .assertionError)
    ∧ (∀ (raw : RawResult) (is : List String), raw.indices = some is →
        raw.urls = none → postProcessIds raw = .ok is)
    ∧ (∀ (raw : RawResult) (us : List String), raw.indices = none →
        raw.urls = some us → postProcessIds raw = .ok us)
    ∧ (∀ (rid q : String) (texts ids : List String),
        (buildCtxs rid q texts ids).map (fun c => (c.full_text, c.source))
          = texts.zip ids)
    ∧ (∀ (cfg : KylinCfg) (cl : Collabs) (question r : String)
        (rest : List String), cfg.rewrite = false →
        (cl.searchFn r question).indices = none →
        (cl.searchFn r question).urls = none →
        inner_search cfg cl (r :: rest) question = .error .assertionError) := by
  refine ⟨?_, ?_, ?_, ?_, ?_⟩
  · intro raw hi hu
    simp [postProcessIds, hi, hu]
  · intro raw is hi _
    simp [postProcessIds, hi]
  · intro raw us hi hu
    simp [postProcessIds, hi, hu]
  · intro rid q texts ids
    rw [buildCtxs, List.map_map]
    exact map_pair_id (texts.zip ids)
  · intro cfg cl question r rest hrw hi hu
    have hpp : postProcessIds (cl.searchFn r question) = .error .assertionError := by
      simp [postProcessIds, hi, hu]
    have hrs : rewriteStep cfg cl question [] 0 r = .ok (question, none) := by
      simp [rewriteStep, hrw]
    have hpr : processRetriever cfg cl question [] 0 r = .error .assertionError := by
      simp [processRetriever, hrs, hpp]
    have hrt : runTurn cfg cl question [] (r :: rest) 0 = .error .assertionError := by
      simp [runTurn, hpr]
    show innerLoop cfg cl (r :: rest) question (total_turn_num cfg) [] [] []
      = .error .assertionError
    cases hv : cfg.verify with
    | true =>
        have htot : total_turn_num cfg = 3 := by simp [total_turn_num, hv]
        rw [htot]
        exact innerLoop_succ_err cfg cl (r :: rest) question 2 [] [] [] _ hrt
    | false =>
        have htot : total_turn_num cfg = 1 := by simp [total_turn_num, hv]
        rw [htot]
        exact innerLoop_succ_err cfg cl (r :: rest) question 0 [] [] [] _ hrt

/-- Witness for `field_normalization` at concrete result groups and a
concrete malformed-backend run. -/
theorem field_normalization_witness :
    postProcessIds wRawBad = .error .assertionError
    ∧ postProcessIds wRaw = .ok ["idx a"]
    ∧ postProcessIds wRawUrls = .ok ["url a"]
    ∧ (buildCtxs "r" "q" ["t1"] ["s1"]).map (fun c => (c.full_text, c.source))
        = (["t1"].zip ["s1"])
    ∧ inner_search cfgV badCollabs ["r"] "q" = .error .assertionError :=
  ⟨field_normalization.1 wRawBad rfl rfl,
   field_normalization.2.1 wRaw ["idx a"] rfl rfl,
   field_normalization.2.2.1 wRawUrls ["url a"] rfl rfl,
   field_normalization.2.2.2.1 "r" "q" ["t1"] ["s1"],
   field_normalization.2.2.2.2 cfgV badCollabs "q" "r" [] rfl rfl rfl⟩

end Kylin

namespace Kylin

lemma summarize_contexts_facts (cl : Collabs) (ctxs : List KCtx) (question : String) :
    ∀ cctx ∈ summarize_contexts cl ctxs question,
      (not_relevant (cl.summResp cctx.full_text question) = true → cctx.text = none)
      ∧ (not_relevant (cl.summResp cctx.full_text question) = false →
          cctx.text = some (cl.summResp cctx.full_text question)) := by
  intro cctx hc
  simp only [summarize_contexts, List.mem_map] at hc
  obtain ⟨c0, hc0, hfc⟩ := hc
  cases hnr : not_relevant (cl.summResp c0.full_text question) with
  | true =>
      have hcc : cctx = { c0 with text := none } := by
        rw [← hfc]
        simp [hnr]
      have hft : cctx.full_text = c0.full_text := by rw [hcc]
      refine ⟨fun _ => by rw [hcc], fun hcontra => ?_⟩
      rw [hft, hnr] at hcontra
      exact absurd hcontra (by simp)
  | false =>
      have hcc : cctx = { c0 with text := some (cl.summResp c0.full_text question) } := by
        rw [← hfc]
        simp [hnr]
      have hft : cctx.full_text = c0.full_text := by rw [hcc]
      refine ⟨fun hcontra => ?_, fun _ => by rw [hcc]⟩
      rw [hft, hnr] at hcontra
      exact absurd hcontra (by simp)

lemma processRetriever_summary (cfg : KylinCfg) (cl : Collabs) (question : String)
    (history : List (List RoundRecord)) (idx : Nat) (rid : String)
    (r1 : RoundRecord) (cs1 : List KCtx) (lg1 : Option (List String))
    (hsum : cfg.summary_context = true)
    (h : processRetriever cfg cl question history idx rid = .ok (r1, cs1, lg1)) :
    ∃ ctxs, r1.summarized_contexts = some (summarize_contexts cl ctxs question)
      ∧ cs1 = (summarize_contexts cl ctxs question).filter (fun c => c.text.isSome) := by
  cases hrs : rewriteStep cfg cl question history idx rid with
  | error e =>
      have : processRetriever cfg cl question history idx rid = .error e := by
        simp [processRetriever, hrs]
      rw [this] at h
      exact absurd h (by simp)
  | ok pr =>
      obtain ⟨q2s, rlog⟩ := pr
      cases hpp : postProcessIds (cl.searchFn rid q2s) with
      | error e =>
          have : processRetriever cfg cl question history idx rid = .error e := by
            simp [processRetriever, hrs, hpp]
          rw [this] at h
          exact absurd h (by simp)
      | ok ids =>
          have heq : processRetriever cfg cl question history idx rid
              = .ok (⟨rid, q2s, buildCtxs rid q2s (cl.searchFn rid q2s).texts ids,
                  some (summarize_contexts cl
                    (buildCtxs rid q2s (cl.searchFn rid q2s).texts ids) question)⟩,
                (summarize_contexts cl
                  (buildCtxs rid q2s (cl.searchFn rid q2s).texts ids) question).filter
                  (fun c => c.text.isSome), rlog) := by
            simp [processRetriever, hrs, hpp, hsum]
          rw [heq] at h
          injection h with h1
          refine ⟨buildCtxs rid q2s (cl.searchFn rid q2s).texts ids, ?_, ?_⟩
          · exact (congrArg (fun p => p.1.summarized_contexts) h1).symm
          · exact (congrArg (fun p => p.2.1) h1).symm

lemma runTurn_summary (cfg : KylinCfg) (cl : Collabs) (question : String)
    (history : List (List RoundRecord)) (hsum : cfg.summary_context = true) :
    ∀ (rets : List String) (idx : Nat) (recs : List RoundRecord) (cs : List KCtx)
      (lgs : List (Option (List String))),
      runTurn cfg cl question history rets idx = .ok (recs, cs, lgs) →
      (∀ x ∈ cs, x.text.isSome)
      ∧ ∀ rcd ∈ recs, ∃ sl, rcd.summarized_contexts = some sl ∧
          ∀ cctx ∈ sl,
            (not_relevant (cl.summResp cctx.full_text question) = true →
              cctx.text = none)
            ∧ (not_relevant (cl.summResp cctx.full_text question) = false →
              cctx.text = some (cl.summResp cctx.full_text question) ∧ cctx ∈ cs)
  | [], idx, recs, cs, lgs, h => by
      simp only [runTurn] at h
      injection h with h1
      have hrecs := congrArg (fun p => p.1) h1
      have hcs := congrArg (fun p => p.2.1) h1
      simp only at hrecs hcs
      subst hrecs
      subst hcs
      exact ⟨by simp, by simp⟩
  | rid :: rest, idx, recs, cs, lgs, h => by
      cases hp : processRetriever cfg cl question history idx rid with
      | error e =>
          have : runTurn cfg cl question history (rid :: rest) idx = .error e := by
            simp [runTurn, hp]
          rw [this] at h
          exact absurd h (by simp)
      | ok out =>
          obtain ⟨r1, cs1, lg1⟩ := out
          cases hr : runTurn cfg cl question history rest (idx + 1) with
          | error e =>
              have : runTurn cfg cl question history (rid :: rest) idx = .error e := by
                simp [runTurn, hp, hr]
              rw [this] at h
              exact absurd h (by simp)
          | ok out2 =>
              obtain ⟨recs2, cs2, lgs2⟩ := out2
              have heq : runTurn cfg cl question history (rid :: rest) idx
                  = .ok (r1 :: recs2, cs1 ++ cs2, lg1 :: lgs2) := by
                simp [runTurn, hp, hr]
              rw [heq] at h
              injection h with h1
              have hrecs := congrArg (fun p => p.1) h1
              have hcs := congrArg (fun p => p.2.1) h1
              simp only at hrecs hcs
              subst hrecs
              subst hcs
              obtain ⟨ctxs, hsl1, hcs1⟩ :=
                processRetriever_summary cfg cl question history idx rid r1 cs1 lg1 hsum hp
              obtain ⟨hall2, hrec2⟩ :=
                runTurn_summary cfg cl question history hsum rest (idx + 1)
                  recs2 cs2 lgs2 hr
              have hall1 : ∀ x ∈ cs1, x.text.isSome = true := by
                intro x hx
                rw [hcs1] at hx
                exact (List.mem_filter.mp hx).2
              have hall : ∀ x ∈ cs1 ++ cs2, x.text.isSome = true := by
                intro x hx
                rcases List.mem_append.mp hx with h' | h'
                · exact hall1 x h'
                · exact hall2 x h'
              refine ⟨hall, ?_⟩
              intro rcd hrcd
              rcases List.mem_cons.mp hrcd with rfl | hrcd2
              · refine ⟨summarize_contexts cl ctxs question, hsl1, ?_⟩
                intro cctx hcctx
                obtain ⟨hT, hF⟩ := summarize_contexts_facts cl ctxs question cctx hcctx
                refine ⟨hT, fun hnr => ⟨hF hnr, ?_⟩⟩
                refine List.mem_append.mpr (Or.inl ?_)
                rw [hcs1]
                exact List.mem_filter.mpr ⟨hcctx, by rw [hF hnr]; rfl⟩
              · obtain ⟨sl, hsl, hfacts⟩ := hrec2 rcd hrcd2
                refine ⟨sl, hsl, ?_⟩
                intro cctx hcctx
                obtain ⟨hT, hF⟩ := hfacts cctx hcctx
                exact ⟨hT, fun hnr => ⟨(hF hnr).1,
                  List.mem_append.mpr (Or.inr (hF hnr).2)⟩⟩

end Kylin

namespace Kylin

/-- Claim C6 (amended): with summarization enabled, a context whose summary
response the source's anchored `not_relevant` pattern matches (lowercased
summary beginning with "context does not provide", "context does not
contain", or "no relevant information") gets summarized text null and is
excluded from the round's aggregated contexts, yet still appears in the
round record under `summarized_contexts`; a context with any other summary
keeps the summary as its text and is included. -/
theorem summarization_filtering (cfg : KylinCfg) (cl : Collabs) (question : String)
    (history : List (List RoundRecord)) (rets : List String)
    (recs : List RoundRecord) (cs : List KCtx) (lgs : List (Option (List String)))
    (hsum : cfg.summary_context = true)
    (hok : runTurn cfg cl question history rets 0 = .ok (recs, cs, lgs)) :
    ∀ rcd ∈ recs, ∃ sl, rcd.summarized_contexts = some sl ∧
      ∀ cctx ∈ sl,
        (not_relevant (cl.summResp cctx.full_text question) = true →
          cctx.text = none ∧ cctx ∉ cs)
        ∧ (not_relevant (cl.summResp cctx.full_text question) = false →
          cctx.text = some (cl.summResp cctx.full_text question) ∧ cctx ∈ cs) := by
  obtain ⟨hall, hrec⟩ := runTurn_summary cfg cl question history hsum rets 0 recs cs lgs hok
  intro rcd hr
  obtain ⟨sl, hsl, hfacts⟩ := hrec rcd hr
  refine ⟨sl, hsl, ?_⟩
  intro cctx hc
  obtain ⟨hT, hF⟩ := hfacts cctx hc
  refine ⟨fun hnr => ⟨hT hnr, fun hmem => ?_⟩, hF⟩
  have hs := hall cctx hmem
  rw [hT hnr] at hs
  simp at hs

/-- Witness for `summarization_filtering`: a concrete summarizing round
whose summary is relevant. -/
theorem summarization_filtering_witness :
    ∃ sl, (⟨"r", "q", [⟨"q", "r", some "text a", "text a", "idx a"⟩],
        some [⟨"q", "r", some "relevant stuff", "text a", "idx a"⟩]⟩ :
          RoundRecord).summarized_contexts = some sl ∧
      ∀ cctx ∈ sl,
        (not_relevant (sumCollabs.summResp cctx.full_text "q") = true →
          cctx.text = none
            ∧ cctx ∉ [(⟨"q", "r", some "relevant stuff", "text a", "idx a"⟩ : KCtx)])
        ∧ (not_relevant (sumCollabs.summResp cctx.full_text "q") = false →
          cctx.text = some (sumCollabs.summResp cctx.full_text "q")
            ∧ cctx ∈ [(⟨"q", "r", some "relevant stuff", "text a", "idx a"⟩ : KCtx)]) :=
  summarization_filtering cfgSum sumCollabs "q" [] ["r"]
    [⟨"r", "q", [⟨"q", "r", some "text a", "text a", "idx a"⟩],
      some [⟨"q", "r", some "relevant stuff", "text a", "idx a"⟩]⟩]
    [⟨"q", "r", some "relevant stuff", "text a", "idx a"⟩] [none] rfl rfl
    _ (List.mem_singleton_self _)

/-- Claim C6 counterexample: the summary response "does not provide the
answer" begins with (and contains) the claim's phrase "does not provide",
case-insensitively; yet the round keeps the context — its summarized text is
the summary, not null, and it appears in the round's aggregated contexts —
because the source's `re.match` pattern is anchored and requires the prefix
"context does not provide". -/
theorem summarization_cex :
    ("does not provide".data.isPrefixOf
        (lowerChars (cexCollabs.summResp "text a" "q"))) = true
    ∧ hasSub "does not provide".data
        (lowerChars (cexCollabs.summResp "text a" "q")) = true
    ∧ runTurn cfgSum cexCollabs "q" [] ["r"] 0
      = .ok ([⟨"r", "q",
               [⟨"q", "r", some "text a", "text a", "idx a"⟩],
               some [⟨"q", "r", some "does not provide the answer", "text a", "idx a"⟩]⟩],
             [⟨"q", "r", some "does not provide the answer", "text a", "idx a"⟩],
             [none])
    ∧ not_relevant "does not provide the answer" = false :=
  ⟨rfl, rfl, rfl, rfl⟩

end Kylin

namespace Kylin

lemma prefix_getElem? {α : Type} {l1 l2 : List α} (h : l1 <+: l2) (n : Nat)
    (hn : n < l1.length) : l2[n]? = l1[n]? := by
  obtain ⟨t, rfl⟩ := h
  exact List.getElem?_append_left hn

lemma rewriteStep_inv (cfg : KylinCfg) (cl : Collabs) (question : String)
    (history : List (List RoundRecord)) (idx : Nat) (rid : String)
    (q2s : String) (rlog : Option (List String))
    (hrw : cfg.rewrite = true)
    (h : rewriteStep cfg cl question history idx rid = .ok (q2s, rlog)) :
    ∃ fh, failingRecords history idx = .ok fh
      ∧ rlog = some (fh.map (fun r => r.query)) := by
  cases hfr : failingRecords history idx with
  | error e =>
      have heq : rewriteStep cfg cl question history idx rid = .error e := by
        simp [rewriteStep, hrw, hfr]
      rw [heq] at h
      exact absurd h (by simp)
  | ok fh =>
      have heq : rewriteStep cfg cl question history idx rid
          = .ok (cl.rewriteResp question rid (fh.map (fun r => r.query)),
              some (fh.map (fun r => r.query))) := by
        simp [rewriteStep, hrw, hfr]
      rw [heq] at h
      injection h with h1
      exact ⟨fh, rfl, (congrArg (fun p => p.2) h1).symm⟩

lemma processRetriever_inv (cfg : KylinCfg) (cl : Collabs) (question : String)
    (history : List (List RoundRecord)) (idx : Nat) (rid : String)
    (r1 : RoundRecord) (cs1 : List KCtx) (lg1 : Option (List String))
    (h : processRetriever cfg cl question history idx rid = .ok (r1, cs1, lg1)) :
    r1.retriever = rid
    ∧ (cfg.rewrite = true → ∃ fq, lg1 = some fq ∧ fq.length = history.length ∧
        ∀ j : Nat, fq[j]? = (history[j]?.bind
          (fun t : List RoundRecord => t[idx]?)).map (fun r => r.query)) := by
  cases hrs : rewriteStep cfg cl question history idx rid with
  | error e =>
      have heq : processRetriever cfg cl question history idx rid = .error e := by
        simp [processRetriever, hrs]
      rw [heq] at h
      exact absurd h (by simp)
  | ok pr =>
      obtain ⟨q2s, rlog⟩ := pr
      cases hpp : postProcessIds (cl.searchFn rid q2s) with
      | error e =>
          have heq : processRetriever cfg cl question history idx rid = .error e := by
            simp [processRetriever, hrs, hpp]
          rw [heq] at h
          exact absurd h (by simp)
      | ok ids =>
          have hmain : r1.retriever = rid ∧ lg1 = rlog := by
            cases hs : cfg.summary_context with
            | true =>
                have heq : processRetriever cfg cl question history idx rid
                    = .ok (⟨rid, q2s, buildCtxs rid q2s (cl.searchFn rid q2s).texts ids,
                        some (summarize_contexts cl
                          (buildCtxs rid q2s (cl.searchFn rid q2s).texts ids) question)⟩,
                      (summarize_contexts cl
                        (buildCtxs rid q2s (cl.searchFn rid q2s).texts ids) question).filter
                        (fun c => c.text.isSome), rlog) := by
                  simp [processRetriever, hrs, hpp, hs]
                rw [heq] at h
                injection h with h1
                exact ⟨(congrArg (fun p => p.1.retriever) h1).symm,
                  (congrArg (fun p => p.2.2) h1).symm⟩
            | false =>
                have heq : processRetriever cfg cl question history idx rid
                    = .ok (⟨rid, q2s, buildCtxs rid q2s (cl.searchFn rid q2s).texts ids,
                        none⟩, buildCtxs rid q2s (cl.searchFn rid q2s).texts ids, rlog) := by
                  simp [processRetriever, hrs, hpp, hs]
                rw [heq] at h
                injection h with h1
                exact ⟨(congrArg (fun p => p.1.retriever) h1).symm,
                  (congrArg (fun p => p.2.2) h1).symm⟩
          refine ⟨hmain.1, fun hcr => ?_⟩
          obtain ⟨fh, hfr, hrlog⟩ :=
            rewriteStep_inv cfg cl question history idx rid q2s rlog hcr hrs
          obtain ⟨hflen, hfp⟩ := failingRecords_spec history idx fh hfr
          refine ⟨fh.map (fun r => r.query), by rw [hmain.2, hrlog], by simp [hflen], ?_⟩
          intro j
          rw [List.getElem?_map, hfp j]

end Kylin

namespace Kylin

lemma runTurn_spec (cfg : KylinCfg) (cl : Collabs) (question : String)
    (history : List (List RoundRecord)) :
    ∀ (rets : List String) (idx0 : Nat) (recs : List RoundRecord) (cs : List KCtx)
      (lgs : List (Option (List String))),
      runTurn cfg cl question history rets idx0 = .ok (recs, cs, lgs) →
      recs.length = rets.length ∧ lgs.length = rets.length
      ∧ (∀ (k : Nat) (rcd : RoundRecord), recs[k]? = some rcd →
          rets[k]? = some rcd.retriever)
      ∧ (cfg.rewrite = true → ∀ (k : Nat) (o : Option (List String)),
          lgs[k]? = some o →
          ∃ fq, o = some fq ∧ fq.length = history.length ∧
            ∀ j : Nat, fq[j]? = (history[j]?.bind
              (fun t : List RoundRecord => t[idx0 + k]?)).map (fun r => r.query))
  | [], idx0, recs, cs, lgs, h => by
      simp only [runTurn] at h
      injection h with h1
      have hrecs := congrArg (fun p => p.1) h1
      have hlgs := congrArg (fun p => p.2.2) h1
      simp only at hrecs hlgs
      subst hrecs
      subst hlgs
      refine ⟨rfl, rfl, ?_, ?_⟩
      · intro k rcd hk
        simp at hk
      · intro _ k o hk
        simp at hk
  | rid :: rest, idx0, recs, cs, lgs, h => by
      cases hp : processRetriever cfg cl question history idx0 rid with
      | error e =>
          have heq : runTurn cfg cl question history (rid :: rest) idx0 = .error e := by
            simp [runTurn, hp]
          rw [heq] at h
          exact absurd h (by simp)
      | ok out =>
          obtain ⟨r1, cs1, lg1⟩ := out
          cases hr : runTurn cfg cl question history rest (idx0 + 1) with
          | error e =>
              have heq : runTurn cfg cl question history (rid :: rest) idx0 = .error e := by
                simp [runTurn, hp, hr]
              rw [heq] at h
              exact absurd h (by simp)
          | ok out2 =>
              obtain ⟨recs2, cs2, lgs2⟩ := out2
              have heq : runTurn cfg cl question history (rid :: rest) idx0
                  = .ok (r1 :: recs2, cs1 ++ cs2, lg1 :: lgs2) := by
                simp [runTurn, hp, hr]
              rw [heq] at h
              injection h with h1
              have hrecs := congrArg (fun p => p.1) h1
              have hlgs := congrArg (fun p => p.2.2) h1
              simp only at hrecs hlgs
              subst hrecs
              subst hlgs
              obtain ⟨hl1, hl2, hrs, hls⟩ :=
                runTurn_spec cfg cl question history rest (idx0 + 1) recs2 cs2 lgs2 hr
              obtain ⟨hret, hrwpart⟩ :=
                processRetriever_inv cfg cl question history idx0 rid r1 cs1 lg1 hp
              refine ⟨by simp [hl1], by simp [hl2], ?_, ?_⟩
              · intro k rcd hk
                cases k with
                | zero =>
                    simp only [List.getElem?_cons_zero] at hk
                    injection hk with hk1
                    subst hk1
                    simp [hret]
                | succ k =>
                    simp only [List.getElem?_cons_succ] at hk ⊢
                    exact hrs k rcd hk
              · intro hcr k o hk
                cases k with
                | zero =>
                    simp only [List.getElem?_cons_zero] at hk
                    injection hk with hk1
                    subst hk1
                    obtain ⟨fq, hfq, hflen, hfp⟩ := hrwpart hcr
                    refine ⟨fq, hfq, hflen, ?_⟩
                    intro j
                    simpa using hfp j
                | succ k =>
                    simp only [List.getElem?_cons_succ] at hk
                    obtain ⟨fq, hfq, hflen, hfp⟩ := hls hcr k o hk
                    refine ⟨fq, hfq, hflen, ?_⟩
                    intro j
                    have hadd : idx0 + (k + 1) = (idx0 + 1) + k := by omega
                    rw [hadd]
                    exact hfp j

end Kylin

namespace Kylin

lemma innerLoop_spec (cfg : KylinCfg) (cl : Collabs) (rets : List String)
    (question : String) (hrw : cfg.rewrite = true) :
    ∀ (fuel : Nat) (history0 : List (List RoundRecord)) (ctxs0 : List KCtx)
      (logs0 : List (List (Option (List String))))
      (c : List KCtx) (hist : List (List RoundRecord))
      (logs : List (List (Option (List String)))),
      logs0.length = history0.length →
      innerLoop cfg cl rets question fuel history0 ctxs0 logs0 = .ok (c, hist, logs) →
      logs.length = hist.length
      ∧ history0 <+: hist ∧ logs0 <+: logs
      ∧ (∀ t : Nat, history0.length ≤ t → ∀ turn : List RoundRecord,
          hist[t]? = some turn → ∀ (idx : Nat) (rcd : RoundRecord),
          turn[idx]? = some rcd → rets[idx]? = some rcd.retriever)
      ∧ (∀ t : Nat, history0.length ≤ t →
          ∀ lt : List (Option (List String)), logs[t]? = some lt →
          ∀ (idx : Nat) (o : Option (List String)), lt[idx]? = some o →
          ∃ fq, o = some fq ∧ fq.length = t ∧
            ∀ j : Nat, fq[j]? = ((hist.take t)[j]?.bind
              (fun turn : List RoundRecord => turn[idx]?)).map (fun r => r.query))
  | 0, history0, ctxs0, logs0, c, hist, logs, hlen0, h => by
      rw [innerLoop_zero] at h
      injection h with h1
      have hh := congrArg (fun p => p.2.1) h1
      have hl := congrArg (fun p => p.2.2) h1
      simp only at hh hl
      subst hh
      subst hl
      refine ⟨hlen0, List.prefix_refl _, List.prefix_refl _, ?_, ?_⟩
      · intro t ht turn hturn
        rw [List.getElem?_eq_none_iff.mpr ht] at hturn
        exact absurd hturn (by simp)
      · intro t ht lt hlt
        rw [List.getElem?_eq_none_iff.mpr (by omega : logs0.length ≤ t)] at hlt
        exact absurd hlt (by simp)
  | fuel + 1, history0, ctxs0, logs0, c, hist, logs, hlen0, h => by
      cases hrun : runTurn cfg cl question history0 rets 0 with
      | error e =>
          rw [innerLoop_succ_err cfg cl rets question fuel history0 ctxs0 logs0 e hrun] at h
          exact absurd h (by simp)
      | ok out =>
          obtain ⟨recs, ctxs, lg⟩ := out
          obtain ⟨hreclen, hlglen, hrets, hlogspec⟩ :=
            runTurn_spec cfg cl question history0 rets 0 recs ctxs lg hrun
          cases hv : verify_contexts cfg cl ctxs question with
          | true =>
              rw [innerLoop_succ_pass cfg cl rets question fuel history0 ctxs0 logs0
                recs ctxs lg hrun hv] at h
              injection h with h1
              have hh := congrArg (fun p => p.2.1) h1
              have hl := congrArg (fun p => p.2.2) h1
              simp only at hh hl
              subst hh
              subst hl
              refine ⟨by simp [hlen0], List.prefix_append _ _, List.prefix_append _ _,
                ?_, ?_⟩
              · intro t ht turn hturn idx rcd hrcd
                rcases Nat.lt_or_ge t (history0.length + 1) with hlt | hge
                · have hteq : t = history0.length := by omega
                  subst hteq
                  rw [List.getElem?_concat_length] at hturn
                  injection hturn with h2
                  subst h2
                  exact hrets idx rcd hrcd
                · rw [List.getElem?_eq_none_iff.mpr (by simp; omega)] at hturn
                  exact absurd hturn (by simp)
              · intro t ht lt hlt idx o ho
                rcases Nat.lt_or_ge t (history0.length + 1) with hlt2 | hge
                · have hteq : t = history0.length := by omega
                  subst hteq
                  have hlgidx : (logs0 ++ [lg])[history0.length]? = some lg := by
                    rw [← hlen0]
                    exact List.getElem?_concat_length _ _
                  rw [hlgidx] at hlt
                  injection hlt with h2
                  subst h2
                  obtain ⟨fq, hfq, hflen, hfp⟩ := hlogspec hrw idx o ho
                  refine ⟨fq, hfq, hflen, ?_⟩
                  intro j
                  rw [List.take_left]
                  simpa using hfp j
                · rw [List.getElem?_eq_none_iff.mpr (by simp; omega)] at hlt
                  exact absurd hlt (by simp)
          | false =>
              rw [innerLoop_succ_fail cfg cl rets question fuel history0 ctxs0 logs0
                recs ctxs lg hrun hv] at h
              obtain ⟨hlen, hpre, hpreL, hrecfact, hlogfact⟩ :=
                innerLoop_spec cfg cl rets question hrw fuel (history0 ++ [recs]) ctxs
                  (logs0 ++ [lg]) c hist logs (by simp [hlen0]) h
              refine ⟨hlen, (List.prefix_append _ _).trans hpre,
                (List.prefix_append _ _).trans hpreL, ?_, ?_⟩
              · intro t ht turn hturn idx rcd hrcd
                rcases Nat.lt_or_ge t (history0.length + 1) with hlt | hge
                · have hteq : t = history0.length := by omega
                  subst hteq
                  have hpg := prefix_getElem? hpre history0.length (by simp)
                  rw [hpg, List.getElem?_concat_length] at hturn
                  injection hturn with h2
                  subst h2
                  exact hrets idx rcd hrcd
                · exact hrecfact t (by simp; omega) turn hturn idx rcd hrcd
              · intro t ht lt hlt idx o ho
                rcases Nat.lt_or_ge t (history0.length + 1) with hlt2 | hge
                · have hteq : t = history0.length := by omega
                  subst hteq
                  have hpgl := prefix_getElem? hpreL history0.length
                    (by simp [← hlen0])
                  have hlgidx : (logs0 ++ [lg])[history0.length]? = some lg := by
                    rw [← hlen0]
                    exact List.getElem?_concat_length _ _
                  rw [hpgl, hlgidx] at hlt
                  injection hlt with h2
                  subst h2
                  obtain ⟨fq, hfq, hflen, hfp⟩ := hlogspec hrw idx o ho
                  refine ⟨fq, hfq, hflen, ?_⟩
                  intro j
                  have htake : hist.take history0.length = history0 := by
                    obtain ⟨tail, htl⟩ := hpre
                    rw [← htl, List.append_assoc, List.take_left]
                  rw [htake]
                  simpa using hfp j
                · exact hlogfact t (by simp; omega) lt hlt idx o ho

end Kylin

namespace Kylin

/-- Claim C5: in any successful run of `inner_search` with rewriting
enabled, the records of every turn are positionally aligned with the
configured retriever order, and the failing-query list handed to the
rewrite collaborator for the retriever at position `idx` on turn `t`
(0-based) is exactly the per-turn query used by that same retriever in the
prior turns `0..t-1` — one entry per prior turn, nothing from other
retrievers, and empty on the first turn. -/
theorem rewrite_feedback (cfg : KylinCfg) (cl : Collabs) (rets : List String)
    (question : String) (c : List KCtx) (hist : List (List RoundRecord))
    (logs : List (List (Option (List String))))
    (hrw : cfg.rewrite = true)
    (hok : inner_search cfg cl rets question = .ok (c, hist, logs)) :
    logs.length = hist.length
    ∧ (∀ (t : Nat) (turn : List RoundRecord), hist[t]? = some turn →
        ∀ (idx : Nat) (rcd : RoundRecord), turn[idx]? = some rcd →
          rets[idx]? = some rcd.retriever)
    ∧ (∀ (t : Nat) (lt : List (Option (List String))), logs[t]? = some lt →
        ∀ (idx : Nat) (o : Option (List String)), lt[idx]? = some o →
          ∃ fq, o = some fq ∧ fq.length = t ∧
            ∀ j : Nat, fq[j]? = ((hist.take t)[j]?.bind
              (fun turn : List RoundRecord => turn[idx]?)).map (fun r => r.query)) := by
  obtain ⟨h1, _, _, h4, h5⟩ := innerLoop_spec cfg cl rets question hrw
    (total_turn_num cfg) [] [] [] c hist logs rfl hok
  exact ⟨h1,
    fun t turn hturn idx rcd hrcd => h4 t (Nat.zero_le t) turn hturn idx rcd hrcd,
    fun t lt hlt idx o ho => h5 t (Nat.zero_le t) lt hlt idx o ho⟩

/-- Witness for `rewrite_feedback`: a concrete single-turn run with
rewriting enabled. -/
theorem rewrite_feedback_witness :
    ([[some ([] : List String)]] : List (List (Option (List String)))).length
      = ([[(⟨"r", "qr", [⟨"qr", "r", some "text a", "text a", "idx a"⟩], none⟩ :
          RoundRecord)]] : List (List RoundRecord)).length
    ∧ (∀ (t : Nat) (turn : List RoundRecord),
        ([[(⟨"r", "qr", [⟨"qr", "r", some "text a", "text a", "idx a"⟩], none⟩ :
          RoundRecord)]] : List (List RoundRecord))[t]? = some turn →
        ∀ (idx : Nat) (rcd : RoundRecord), turn[idx]? = some rcd →
          (["r"] : List String)[idx]? = some rcd.retriever)
    ∧ (∀ (t : Nat) (lt : List (Option (List String))),
        ([[some ([] : List String)]] : List (List (Option (List String))))[t]? = some lt →
        ∀ (idx : Nat) (o : Option (List String)), lt[idx]? = some o →
          ∃ fq, o = some fq ∧ fq.length = t ∧
            ∀ j : Nat, fq[j]? =
              ((([[(⟨"r", "qr", [⟨"qr", "r", some "text a", "text a", "idx a"⟩], none⟩ :
                  RoundRecord)]] : List (List RoundRecord)).take t)[j]?.bind
                (fun turn : List RoundRecord => turn[idx]?)).map (fun r => r.query)) :=
  rewrite_feedback cfgRw rwCollabs ["r"] "q"
    [⟨"qr", "r", some "text a", "text a", "idx a"⟩]
    [[⟨"r", "qr", [⟨"qr", "r", some "text a", "text a", "idx a"⟩], none⟩]]
    [[some []]] rfl rfl

end Kylin
